import Mathlib

/-!
# timeoutfs: expiry registry, reaper and FUSE callbacks

A shallow embedding of `src/timeoutfs.cpp`.

* The globals `expiry_map`, `timeout_seconds` and the backing directory tree are the
  fields of `State`; every callback takes the state and returns its result together
  with the new state.
* `std::map<time_t, std::string>` is a list of `(deadline, relative path)` pairs kept
  in strictly ascending key order (`ExpiryMap.WF`).  The operations never assume the
  order; separate lemmas show they preserve it.
* `time_t` and `off_t` are `Int`.  Signed overflow of `time(nullptr) + timeout_seconds`
  is undefined behaviour in C++ and is outside the model.  The `int res = pread(...)`
  and `int res = pwrite(...)` conversions are modelled by `toInt32`.
* The kernel side of `open`, `pread`, `pwrite`, `unlink`, `lstat` follows Linux on a store
  of regular files (with their permission bits) and directories, keyed by the path string
  handed to the system call; FUSE hands the callbacks canonical paths, and a path that
  ends in the separator (the root `/` of the mount) resolves to the directory before it.
  A file is created only below an existing directory; the daemon owns the files, may
  search and write the directories, and opens a file subject to its owner bits unless it
  is privileged.  One `pread` or `pwrite` moves at most `MAX_RW_COUNT` bytes.
* A byte is a `Nat`; no operation looks at its value.
* `log_message` only writes to syslog and is left out.
-/

namespace TimeoutFS

/-! ## Constants -/

/-- The value of `static std::string backing_dir`. -/
def backing_dir : String := "/tmp/timeoutfs_data"

def ENOENT : Nat := 2
def EEXIST : Nat := 17
def EACCES : Nat := 13
def ENOTDIR : Nat := 20
def EISDIR : Nat := 21
def EINVAL : Nat := 22

def O_RDONLY : Nat := 0
def O_WRONLY : Nat := 1
def O_ACCMODE : Nat := 3
def O_CREAT : Nat := 64
def O_EXCL : Nat := 128
def O_TRUNC : Nat := 512

def S_IRUSR : Nat := 256
def S_IWUSR : Nat := 128

/-- The most bytes one `read` or `write` system call of Linux transfers (`0x7ffff000`). -/
def MAX_RW_COUNT : Nat := 2147479552

/-- Conversion of a 64-bit `ssize_t` result to `int` (two's complement, 32 bits). -/
def toInt32 (n : Int) : Int := (n + 2147483648) % 4294967296 - 2147483648

/-! ## The backing directory tree -/

/-- What a path of the backing store names: a regular file with its permission bits and
its bytes, or a directory. -/
inductive Node where
  | file (mode : Nat) (bytes : List Nat)
  | dir
  deriving DecidableEq, Repr

/-- The backing store: path ↦ node, paths without a separator at the right.  The first
binding of a path is the live one. -/
abbrev Fs := List (String × Node)

namespace Fs

def lookup : Fs → String → Option Node
  | [], _ => none
  | (q, n) :: rest, p => if q = p then some n else lookup rest p

/-- Remove every binding of `p`. -/
def remove : Fs → String → Fs
  | [], _ => []
  | (q, n) :: rest, p => if q = p then remove rest p else (q, n) :: remove rest p

/-- Bind `p` to `n`, replacing what was there. -/
def set (fs : Fs) (p : String) (n : Node) : Fs := (p, n) :: remove fs p

/-- The path ends in the separator. -/
def trailing_slash (p : String) : Bool := p.data.getLast? == some '/'

/-- The path without the separators at its right. -/
def strip_slashes (p : String) : String :=
  String.mk (p.data.reverse.dropWhile (fun c => c == '/')).reverse

/-- The path of the directory that holds the last component of `p`; empty for a path
directly below the root. -/
def parent (p : String) : String :=
  String.mk ((p.data.reverse.dropWhile (fun c => c != '/')).drop 1).reverse

/-- What is wrong with the directory in which `p` would be created: nothing, it is
missing (`ENOENT`), or it is a regular file (`ENOTDIR`). -/
def parent_errno (fs : Fs) (p : String) : Option Nat :=
  if parent p = "" then none
  else match lookup fs (parent p) with
    | some Node.dir => none
    | some (Node.file _ _) => some ENOTDIR
    | none => some ENOENT

/-- What path resolution finds at `p`: a path that ends in the separator resolves to the
directory before it, or to nothing. -/
def stat (fs : Fs) (p : String) : Option Node :=
  if trailing_slash p then
    match lookup fs (strip_slashes p) with
    | some Node.dir => some Node.dir
    | _ => none
  else lookup fs p

/-- Mirror of the test helper `fileExists`: `stat` succeeds on the path. -/
def pathExists (fs : Fs) (p : String) : Bool := (stat fs p).isSome

/-- The path names a regular file. -/
def isFile (fs : Fs) (p : String) : Bool :=
  match stat fs p with
  | some (Node.file _ _) => true
  | _ => false

/-- Mirror of `fs::is_directory`. -/
def is_directory (fs : Fs) (p : String) : Bool :=
  match stat fs p with
  | some Node.dir => true
  | _ => false

/-- The path names a regular file whose owner may read and write it (bits `0400` and
`0200` of its mode). -/
def owner_rw (fs : Fs) (p : String) : Bool :=
  match stat fs p with
  | some (Node.file m _) => (m &&& 256) != 0 && (m &&& 128) != 0
  | _ => false

end Fs

deriving instance DecidableEq for Except

/-- Whether bit `flag` (a power of two) is set in `flags`. -/
def hasFlag (flags flag : Nat) : Bool := (flags &&& flag) != 0

/-- The credentials of the daemon process that bear on `open`: whether it overrides
permission checks (runs as root), and its file mode creation mask. -/
structure Cred where
  privileged : Bool
  umask : Nat
  deriving DecidableEq, Repr

/-- An unprivileged daemon with the usual mask `022`, the way the test starts it. -/
def Cred.user : Cred := { privileged := false, umask := 18 }

/-- Whether the owner bits `m` of a file let the daemon open it with `flags`: read access
unless the open is write-only, write access unless it is read-only without `O_TRUNC`. -/
def may_open (cred : Cred) (m flags : Nat) : Bool :=
  cred.privileged ||
    (((flags &&& O_ACCMODE) == O_WRONLY || hasFlag m S_IRUSR) &&
     (((flags &&& O_ACCMODE) == O_RDONLY && !hasFlag flags O_TRUNC) || hasFlag m S_IWUSR))

/-- The call `open(path, flags, mode)`.  Returns the errno on failure and the backing store
after the open on success (the file is created or truncated by the open itself). -/
def sys_open (cred : Cred) (fs : Fs) (path : String) (flags : Nat) (mode : Nat) :
    Except Nat Fs :=
  if Fs.trailing_slash path then
    if hasFlag flags O_CREAT then .error EISDIR
    else match fs.lookup (Fs.strip_slashes path) with
      | some Node.dir =>
        if (flags &&& O_ACCMODE) != O_RDONLY || hasFlag flags O_TRUNC then .error EISDIR
        else .ok fs
      | some (Node.file _ _) => .error ENOTDIR
      | none => .error ENOENT
  else
    match fs.lookup path with
    | some Node.dir =>
      if hasFlag flags O_CREAT && hasFlag flags O_EXCL then .error EEXIST
      else if hasFlag flags O_CREAT || (flags &&& O_ACCMODE) != O_RDONLY
          || hasFlag flags O_TRUNC then .error EISDIR
      else .ok fs
    | some (Node.file m _) =>
      if hasFlag flags O_CREAT && hasFlag flags O_EXCL then .error EEXIST
      else if !may_open cred m flags then .error EACCES
      else if hasFlag flags O_TRUNC then .ok (fs.set path (Node.file m []))
      else .ok fs
    | none =>
      match Fs.parent_errno fs path with
      | some errno => .error errno
      | none =>
        if hasFlag flags O_CREAT then
          .ok (fs.set path (Node.file (mode - (mode &&& cred.umask)) []))
        else .error ENOENT

/-- The call `unlink(path)`: removes a regular file; fails on a missing path, a directory,
or a path that ends in the separator.  Returns the result (`0` or `-1`) and the new
backing store. -/
def sys_unlink (fs : Fs) (path : String) : Int × Fs :=
  if Fs.trailing_slash path then (-1, fs)
  else match fs.lookup path with
    | some (Node.file _ _) => (0, fs.remove path)
    | _ => (-1, fs)

/-- The bytes `pread(fd, buf, size, offset)` transfers from a regular file holding
`bytes`, for `offset ≥ 0`: what the file has from `offset` on, up to `size` bytes and up
to `MAX_RW_COUNT`. -/
def pread_bytes (bytes : List Nat) (size : Nat) (offset : Int) : List Nat :=
  (bytes.drop offset.toNat).take (min size MAX_RW_COUNT)

/-- The bytes `pwrite(fd, buf, size, offset)` takes from `buf`: the first `size`, up to
`MAX_RW_COUNT`. -/
def pwrite_chunk (buf : List Nat) (size : Nat) : List Nat := buf.take (min size MAX_RW_COUNT)

/-- The contents of a regular file holding `bytes` after `pwrite(fd, buf, size, offset)`
with `offset ≥ 0`: the bytes taken from `buf` land at `offset`, a gap between the old
contents and `offset` reads as zeros, and a write of no bytes changes nothing. -/
def pwrite_bytes (bytes : List Nat) (buf : List Nat) (size : Nat) (offset : Int) : List Nat :=
  let off := offset.toNat
  let chunk := pwrite_chunk buf size
  if chunk = [] then bytes
  else bytes.take off ++ List.replicate (off - bytes.length) 0 ++ chunk
    ++ bytes.drop (off + chunk.length)

/-- The names `fs::directory_iterator(dir)` yields: the last component of every live
binding directly below `dir`, each once. -/
def directory_entries (fs : Fs) (dir : String) : List String :=
  let pre := (dir ++ "/").data
  (fs.filterMap (fun e =>
    let name := e.1.data.drop pre.length
    if pre.isPrefixOf e.1.data && name != [] && !name.contains '/' then some (String.mk name)
    else none)).eraseDups

/-! ## The expiry registry -/

/-- The contents of `static std::map<time_t, std::string> expiry_map`, in iteration order. -/
abbrev ExpiryMap := List (Int × String)

namespace ExpiryMap

/-- The ordering invariant of `std::map`: keys strictly ascending (hence unique). -/
def WF (m : ExpiryMap) : Prop := m.Pairwise (fun a b => a.1 < b.1)

instance (m : ExpiryMap) : Decidable (WF m) := by
  unfold WF; infer_instance

/-- The value stored under key `k`, as `expiry_map.find(k)` would give it. -/
def find : ExpiryMap → Int → Option String
  | [], _ => none
  | (d, p) :: rest, k => if d = k then some p else find rest k

/-- The statement `expiry_map[k] = v`: overwrite the value of an existing key, insert a
new key at its place in the order otherwise. -/
def assign : ExpiryMap → Int → String → ExpiryMap
  | [], k, v => [(k, v)]
  | (d, p) :: rest, k, v =>
    if k < d then (k, v) :: (d, p) :: rest
    else if k = d then (k, v) :: rest
    else (d, p) :: assign rest k v

end ExpiryMap

/-! ## Program state -/

/-- The mutable globals of the daemon together with the backing directory tree and the
credentials of the process (those of an ordinary user unless given). -/
structure State where
  expiry_map : ExpiryMap
  timeout_seconds : Int
  fs : Fs
  cred : Cred := Cred.user
  deriving DecidableEq, Repr

/-- Mirror of `full_path`: `backing_dir + std::string(path)`. -/
def full_path (path : String) : String := backing_dir ++ path

/-- The pointer `path + 1`: the C string without its first character. -/
def skip_leading (path : String) : String := String.mk (path.data.drop 1)

/-! ## The reaper -/

/-- What the reaper thread does that another thread can observe, in program order. -/
inductive Action where
  | lock
  | unlink (path : String)
  | erase (deadline : Int)
  | unlock
  deriving DecidableEq, Repr

/-- The inner loop of `delete_expired_files`:
`it = expiry_map.begin(); while (it != end && it->first <= now) { unlink(backing_dir + "/" + it->second); it = expiry_map.erase(it); }`.
Returns the registry and the backing store after the loop and the actions performed. -/
def drain_loop (now : Int) : ExpiryMap → Fs → ExpiryMap × Fs × List Action
  | [], fs => ([], fs, [])
  | (d, rel) :: rest, fs =>
    if d ≤ now then
      let fpath := backing_dir ++ "/" ++ rel
      let fs1 := (sys_unlink fs fpath).2
      let r := drain_loop now rest fs1
      (r.1, r.2.1, Action.unlink fpath :: Action.erase d :: r.2.2)
    else ((d, rel) :: rest, fs, [])

/-- One pass of the body of `while (running)` in `delete_expired_files`, after the sleep,
with `now` the value `time(nullptr)` returned: take `expiry_mutex`, run the drain loop,
release the mutex when the `lock_guard` goes out of scope at the end of the body. -/
def delete_expired_files (s : State) (now : Int) : State × List Action :=
  let r := drain_loop now s.expiry_map s.fs
  ({ s with expiry_map := r.1, fs := r.2.1 }, [Action.lock] ++ r.2.2 ++ [Action.unlock])

/-- The actions one pass performs for the registry entries `es`, in order: for each entry
the `unlink` of its backing file, then the `erase` of the entry. -/
def pass_actions (es : List (Int × String)) : List Action :=
  es.flatMap (fun e => [Action.unlink (backing_dir ++ "/" ++ e.2), Action.erase e.1])

/-- The backing store after unlinking the files of the entries `es`, in order. -/
def unlink_all (fs : Fs) (es : List (Int × String)) : Fs :=
  es.foldl (fun acc e => (sys_unlink acc (backing_dir ++ "/" ++ e.2)).2) fs

/-- Whether some `unlink` of the trace happens while the mutex is held; `held` says
whether it is held at the start of the trace. -/
def unlink_while_held : Bool → List Action → Bool
  | _, [] => false
  | _, Action.lock :: t => unlink_while_held true t
  | _, Action.unlock :: t => unlink_while_held false t
  | held, Action.unlink _ :: t => held || unlink_while_held held t
  | held, Action.erase _ :: t => unlink_while_held held t

/-- Whether some `unlink` of the trace comes before the `erase` that directly follows
it, that is, before its own entry has left the registry. -/
def unlink_before_erase : List Action → Bool
  | Action.unlink _ :: Action.erase _ :: _ => true
  | _ :: t => unlink_before_erase t
  | [] => false

/-! ## The FUSE callbacks -/

/-- Mirror of `timeoutfs_readdir`.  `buf` is the list of names `filler` has added so far.
The result code is `none` when `fs::directory_iterator` throws because `backing_dir` is
not a directory. -/
def timeoutfs_readdir (s : State) (path : String) (buf : List String) :
    Option Int × List String × State :=
  if path ≠ "/" then (some (-(ENOENT : Int)), buf, s)
  else
    let buf1 := buf ++ ["."]
    let buf2 := buf1 ++ [".."]
    if s.fs.is_directory backing_dir then
      (some 0, buf2 ++ directory_entries s.fs backing_dir, s)
    else (none, buf2, s)

/-- Mirror of `timeoutfs_read`: result code, `buf` afterwards, state afterwards.  `errno0`
is the value `errno` holds on the calling thread when no system call of the callback
has failed. -/
def timeoutfs_read (s : State) (path : String) (buf : List Nat) (size : Nat) (offset : Int)
    (errno0 : Nat) : Int × List Nat × State :=
  let fpath := full_path path
  match sys_open s.cred s.fs fpath O_RDONLY 0 with
  | .error errno => (-(errno : Int), buf, s)
  | .ok fs1 =>
    let s1 := { s with fs := fs1 }
    match fs1.stat fpath with
    | some (Node.file _ bytes) =>
      if offset < 0 then (-(EINVAL : Int), buf, s1)
      else
        let got := pread_bytes bytes size offset
        let res := toInt32 got.length
        ((if res = -1 then -(errno0 : Int) else res), got ++ buf.drop got.length, s1)
    | _ => (-(EISDIR : Int), buf, s1)

/-- Mirror of `timeoutfs_write`: result code and state afterwards.  `errno0` as in
`timeoutfs_read`. -/
def timeoutfs_write (s : State) (path : String) (buf : List Nat) (size : Nat) (offset : Int)
    (errno0 : Nat) : Int × State :=
  let fpath := full_path path
  match sys_open s.cred s.fs fpath (O_WRONLY ||| O_CREAT) 420 with
  | .error errno => (-(errno : Int), s)
  | .ok fs1 =>
    match fs1.stat fpath with
    | some (Node.file m bytes) =>
      if offset < 0 then (-(EINVAL : Int), { s with fs := fs1 })
      else
        let res := toInt32 (pwrite_chunk buf size).length
        ((if res = -1 then -(errno0 : Int) else res),
          { s with fs := fs1.set fpath (Node.file m (pwrite_bytes bytes buf size offset)) })
    | _ => (-(EISDIR : Int), { s with fs := fs1 })

/-- Mirror of `timeoutfs_create`, with `fi_flags` the value of `fi->flags` and `now` the
value `time(nullptr)` returns under the lock. -/
def timeoutfs_create (s : State) (path : String) (mode : Nat) (fi_flags : Nat) (now : Int) :
    Int × State :=
  let fpath := full_path path
  match sys_open s.cred s.fs fpath (fi_flags ||| O_CREAT) mode with
  | .error errno => (-(errno : Int), s)
  | .ok fs1 =>
    let expiry := now + s.timeout_seconds
    (0, { s with expiry_map := s.expiry_map.assign expiry (skip_leading path), fs := fs1 })

/-! ## Runs of the daemon -/

/-- What happens to the daemon in a run restricted to creations and reaper passes. -/
inductive Event where
  | create (path : String) (mode : Nat) (fi_flags : Nat) (now : Int)
  | reap (now : Int)
  deriving DecidableEq, Repr

def step (s : State) : Event → State
  | Event.create path mode fi_flags now => (timeoutfs_create s path mode fi_flags now).2
  | Event.reap now => (delete_expired_files s now).1

def run (s : State) (evs : List Event) : State := evs.foldl step s

/-- The state at process start: empty registry, the configured timeout, the backing
store as found, and an ordinary user as the daemon. -/
def init (timeout : Int) (fs : Fs) : State :=
  { expiry_map := [], timeout_seconds := timeout, fs := fs }

/-! ## Lemmas on paths -/

theorem skip_leading_slash (rel : String) : skip_leading ("/" ++ rel) = rel := by
  apply String.ext
  simp [skip_leading]

theorem full_path_slash (rel : String) : backing_dir ++ "/" ++ rel = full_path ("/" ++ rel) := by
  simp [full_path, String.append_assoc]

theorem string_append_cancel {a b c : String} (h : a ++ b = a ++ c) : b = c := by
  apply String.ext
  have h2 := congrArg String.data h
  simpa using h2

theorem backing_path_inj {r1 r2 : String}
    (h : backing_dir ++ "/" ++ r1 = backing_dir ++ "/" ++ r2) : r1 = r2 :=
  string_append_cancel h

/-! ## Lemmas on the backing store -/

namespace Fs

theorem lookup_remove_self (fs : Fs) (p : String) : lookup (remove fs p) p = none := by
  induction fs with
  | nil => rfl
  | cons e rest ih =>
    obtain ⟨q, n⟩ := e
    by_cases h : q = p <;> simp [remove, lookup, h, ih]

theorem lookup_remove_ne (fs : Fs) {p q : String} (h : p ≠ q) :
    lookup (remove fs p) q = lookup fs q := by
  induction fs with
  | nil => rfl
  | cons e rest ih =>
    obtain ⟨r, n⟩ := e
    by_cases h1 : r = p
    · have h2 : r ≠ q := by rw [h1]; exact h
      simp [remove, lookup, h1, ih, h]
    · by_cases h2 : r = q
      · subst h2
        simp [remove, lookup, h1]
      · simp [remove, lookup, h1, h2, ih]

theorem lookup_set_self (fs : Fs) (p : String) (n : Node) : lookup (set fs p n) p = some n := by
  simp [set, lookup]

theorem lookup_set_ne (fs : Fs) {p q : String} (n : Node) (h : p ≠ q) :
    lookup (set fs p n) q = lookup fs q := by
  simp [set, lookup, h, lookup_remove_ne fs h]

end Fs

theorem isFile_iff (fs : Fs) (p : String) :
    fs.isFile p = true ↔
      Fs.trailing_slash p = false ∧ ∃ m b, fs.lookup p = some (Node.file m b) := by
  unfold Fs.isFile Fs.stat
  by_cases ht : Fs.trailing_slash p = true
  · simp only [ht, if_true]
    constructor
    · intro h
      split at h
      · rename_i hs
        split at hs <;> cases hs
      · cases h
    · intro h
      cases h.1
  · simp only [ht]
    constructor
    · intro h
      split at h
      · rename_i m b hs
        exact ⟨trivial, m, b, hs⟩
      · cases h
    · rintro ⟨-, m, b, hl⟩
      simp [hl]

theorem isFile_congr {fs fs2 : Fs} {p : String} (h : fs2.lookup p = fs.lookup p)
    (hf : fs.isFile p = true) : fs2.isFile p = true := by
  rw [isFile_iff] at hf ⊢
  rw [h]
  exact hf

theorem stat_of_no_slash {fs : Fs} {p : String} (h : Fs.trailing_slash p = false) :
    fs.stat p = fs.lookup p := by
  simp [Fs.stat, h]

/-- What a successful `open` does to the store: nothing, or it binds the opened path,
which does not end in the separator, to an empty regular file. -/
theorem sys_open_cases {cred : Cred} {fs fs1 : Fs} {p : String} {flags mode : Nat}
    (h : sys_open cred fs p flags mode = .ok fs1) :
    fs1 = fs ∨ (Fs.trailing_slash p = false ∧ ∃ m, fs1 = fs.set p (Node.file m []) ∧
      (fs.lookup p = none ∨ ∃ b, fs.lookup p = some (Node.file m b))) := by
  unfold sys_open at h
  split at h
  · split at h
    · cases h
    · split at h
      · split at h
        · cases h
        · cases h; exact Or.inl rfl
      · cases h
      · cases h
  · rename_i ht
    have ht2 : Fs.trailing_slash p = false := by simpa using ht
    split at h
    · split at h
      · cases h
      · split at h
        · cases h
        · cases h; exact Or.inl rfl
    · rename_i m b hl
      split at h
      · cases h
      · split at h
        · cases h
        · split at h
          · cases h; exact Or.inr ⟨ht2, m, rfl, Or.inr ⟨b, hl⟩⟩
          · cases h; exact Or.inl rfl
    · rename_i hl
      split at h
      · cases h
      · split at h
        · cases h; exact Or.inr ⟨ht2, _, rfl, Or.inl hl⟩
        · cases h

/-- A successful `open` changes no path other than the one opened. -/
theorem sys_open_other {cred : Cred} {fs fs1 : Fs} {p q : String} {flags mode : Nat}
    (h : sys_open cred fs p flags mode = .ok fs1) (hne : p ≠ q) :
    fs1.lookup q = fs.lookup q := by
  rcases sys_open_cases h with h1 | ⟨-, m, h1, -⟩
  · rw [h1]
  · rw [h1]; exact Fs.lookup_set_ne fs _ hne

/-- A regular file stays a regular file across a successful `open` of any path. -/
theorem sys_open_keeps_file {cred : Cred} {fs fs1 : Fs} {p q : String} {flags mode : Nat}
    (h : sys_open cred fs p flags mode = .ok fs1) (hq : fs.isFile q = true) :
    fs1.isFile q = true := by
  rw [isFile_iff] at hq ⊢
  obtain ⟨hs, m, b, hl⟩ := hq
  refine ⟨hs, ?_⟩
  by_cases hne : p = q
  · subst hne
    rcases sys_open_cases h with h1 | ⟨-, m2, h1, -⟩
    · rw [h1]; exact ⟨m, b, hl⟩
    · rw [h1]; exact ⟨m2, [], Fs.lookup_set_self _ _ _⟩
  · rw [sys_open_other h hne]; exact ⟨m, b, hl⟩

/-- The errno of a failed `open` is never zero. -/
theorem sys_open_errno_pos {cred : Cred} {fs : Fs} {p : String} {flags mode e : Nat}
    (h : sys_open cred fs p flags mode = .error e) : 0 < e := by
  unfold sys_open at h
  split at h
  · split at h
    · cases h; decide
    · split at h
      · split at h
        · cases h; decide
        · cases h
      · cases h; decide
      · cases h; decide
  · split at h
    · split at h
      · cases h; decide
      · split at h
        · cases h; decide
        · cases h
    · split at h
      · cases h; decide
      · split at h
        · cases h; decide
        · split at h <;> cases h
    · split at h
      · rename_i e2 hp
        cases h
        unfold Fs.parent_errno at hp
        split at hp
        · cases hp
        · split at hp
          · cases hp
          · cases hp; decide
          · cases hp; decide
      · split at h
        · cases h
        · cases h; decide

theorem hasFlag_or_creat (flags : Nat) : hasFlag (flags ||| O_CREAT) O_CREAT = true := by
  have h : (flags ||| O_CREAT) &&& O_CREAT = O_CREAT := by
    apply Nat.eq_of_testBit_eq
    intro i
    simp only [Nat.testBit_and, Nat.testBit_or]
    cases flags.testBit i <;> simp
  unfold hasFlag
  rw [h]
  decide

/-- After a successful `open` with `O_CREAT` the path names a regular file. -/
theorem sys_open_creat_isFile {cred : Cred} {fs fs1 : Fs} {p : String} {flags mode : Nat}
    (h : sys_open cred fs p (flags ||| O_CREAT) mode = .ok fs1) : fs1.isFile p = true := by
  rw [isFile_iff]
  have hc := hasFlag_or_creat flags
  unfold sys_open at h
  split at h
  · simp [hc] at h
  · rename_i ht
    have ht2 : Fs.trailing_slash p = false := by simpa using ht
    refine ⟨ht2, ?_⟩
    split at h
    · simp only [hc, Bool.true_and, Bool.true_or, if_true] at h
      split at h <;> cases h
    · rename_i m b hl
      split at h
      · cases h
      · split at h
        · cases h
        · split at h
          · cases h; exact ⟨m, [], Fs.lookup_set_self _ _ _⟩
          · cases h; exact ⟨m, b, hl⟩
    · split at h
      · cases h
      · cases h
        exact ⟨_, [], Fs.lookup_set_self _ _ _⟩

/-! ## Lemmas on the registry -/

namespace ExpiryMap

theorem find_assign_self (m : ExpiryMap) (k : Int) (v : String) :
    find (assign m k v) k = some v := by
  induction m with
  | nil => simp [assign, find]
  | cons e rest ih =>
    obtain ⟨d, p⟩ := e
    unfold assign
    split
    · simp [find]
    · split
      · simp [find]
      · rename_i h1 h2
        have h3 : d ≠ k := fun h => h2 h.symm
        simp [find, h3, ih]

theorem find_assign_ne (m : ExpiryMap) {k k2 : Int} (v : String) (h : k2 ≠ k) :
    find (assign m k v) k2 = find m k2 := by
  have hk : k ≠ k2 := fun e => h e.symm
  induction m with
  | nil => simp [assign, find, hk]
  | cons e rest ih =>
    obtain ⟨d, p⟩ := e
    unfold assign
    split
    · simp [find, hk]
    · split
      · rename_i h1 h2
        subst h2
        simp [find, hk]
      · by_cases h3 : d = k2 <;> simp [find, h3, ih]

theorem mem_assign {m : ExpiryMap} {k : Int} {v : String} {e : Int × String}
    (h : e ∈ assign m k v) : e = (k, v) ∨ e ∈ m := by
  induction m with
  | nil => simpa [assign] using h
  | cons a rest ih =>
    obtain ⟨d, p⟩ := a
    unfold assign at h
    split at h
    · simpa using h
    · split at h
      · simp only [List.mem_cons] at h ⊢
        rcases h with h | h
        · exact Or.inl h
        · exact Or.inr (Or.inr h)
      · simp only [List.mem_cons] at h ⊢
        rcases h with h | h
        · exact Or.inr (Or.inl h)
        · rcases ih h with h | h
          · exact Or.inl h
          · exact Or.inr (Or.inr h)

theorem mem_assign_self (m : ExpiryMap) (k : Int) (v : String) : (k, v) ∈ assign m k v := by
  induction m with
  | nil => simp [assign]
  | cons a rest ih =>
    obtain ⟨d, p⟩ := a
    unfold assign
    split
    · simp
    · split
      · simp
      · simp [ih]

/-- An entry under another key survives `expiry_map[k] = v`. -/
theorem mem_assign_of_ne {m : ExpiryMap} {k : Int} (v : String) {e : Int × String}
    (h : e ∈ m) (hk : e.1 ≠ k) : e ∈ assign m k v := by
  induction m with
  | nil => cases h
  | cons a rest ih =>
    obtain ⟨d, p⟩ := a
    unfold assign
    split
    · exact List.mem_cons_of_mem _ h
    · split
      · rename_i h1 h2
        simp only [List.mem_cons] at h ⊢
        rcases h with h | h
        · subst h; exact absurd h2.symm hk
        · exact Or.inr h
      · simp only [List.mem_cons] at h ⊢
        rcases h with h | h
        · exact Or.inl h
        · exact Or.inr (ih h)

/-- The assignment keeps the keys strictly ascending. -/
theorem WF_assign {m : ExpiryMap} (h : WF m) (k : Int) (v : String) : WF (assign m k v) := by
  induction m with
  | nil => simp [assign, WF]
  | cons a rest ih =>
    obtain ⟨d, p⟩ := a
    unfold WF at h ih ⊢
    rw [List.pairwise_cons] at h
    unfold assign
    split
    · rename_i hlt
      rw [List.pairwise_cons, List.pairwise_cons]
      refine ⟨?_, h.1, h.2⟩
      intro b hb
      simp only [List.mem_cons] at hb
      rcases hb with hb | hb
      · subst hb; exact hlt
      · exact lt_trans hlt (h.1 b hb)
    · split
      · rename_i h1 h2
        subst h2
        rw [List.pairwise_cons]
        exact ⟨h.1, h.2⟩
      · rename_i h1 h2
        rw [List.pairwise_cons]
        refine ⟨?_, ih h.2⟩
        intro b hb
        rcases mem_assign hb with hb | hb
        · subst hb
          show d < k
          omega
        · exact h.1 b hb

/-- In a well-formed registry a key has at most one entry. -/
theorem WF_unique {m : ExpiryMap} (h : WF m) {k : Int} {v w : String}
    (hv : (k, v) ∈ m) (hw : (k, w) ∈ m) : v = w := by
  induction m with
  | nil => cases hv
  | cons a rest ih =>
    unfold WF at h ih
    rw [List.pairwise_cons] at h
    simp only [List.mem_cons] at hv hw
    rcases hv with hv | hv <;> rcases hw with hw | hw
    · rw [← hv] at hw; exact (Prod.mk.inj hw).2.symm
    · have := h.1 _ hw; rw [← hv] at this; exact absurd this (lt_irrefl _)
    · have := h.1 _ hv; rw [← hw] at this; exact absurd this (lt_irrefl _)
    · exact ih h.2 hv hw

/-- The entries after `expiry_map[k] = v` on a registry in key order: the new one and
the old ones under other keys. -/
theorem mem_assign_iff {m : ExpiryMap} (h : WF m) {k : Int} {v : String} {e : Int × String} :
    e ∈ assign m k v ↔ e = (k, v) ∨ (e ∈ m ∧ e.1 ≠ k) := by
  constructor
  · intro he
    by_cases hk : e.1 = k
    · left
      obtain ⟨d, w⟩ := e
      simp only at hk
      subst hk
      rw [WF_unique (WF_assign h d v) he (mem_assign_self m d v)]
    · rcases mem_assign he with h1 | h1
      · exact Or.inl h1
      · exact Or.inr ⟨h1, hk⟩
  · rintro (h1 | ⟨h1, h2⟩)
    · rw [h1]; exact mem_assign_self m k v
    · exact mem_assign_of_ne v h1 h2

end ExpiryMap

/-! ## The reaper pass -/

theorem drain_loop_map (now : Int) (m : ExpiryMap) (fs : Fs) :
    (drain_loop now m fs).1 = m.dropWhile (fun e => decide (e.1 ≤ now)) := by
  induction m generalizing fs with
  | nil => rfl
  | cons e rest ih =>
    obtain ⟨d, rel⟩ := e
    by_cases h : d ≤ now
    · simp [drain_loop, h, ih]
    · simp [drain_loop, h]

theorem drain_loop_actions (now : Int) (m : ExpiryMap) (fs : Fs) :
    (drain_loop now m fs).2.2 = pass_actions (m.takeWhile (fun e => decide (e.1 ≤ now))) := by
  induction m generalizing fs with
  | nil => rfl
  | cons e rest ih =>
    obtain ⟨d, rel⟩ := e
    by_cases h : d ≤ now
    · simp [drain_loop, h, ih, pass_actions]
    · simp [drain_loop, h, pass_actions]

theorem drain_loop_fs (now : Int) (m : ExpiryMap) (fs : Fs) :
    (drain_loop now m fs).2.1 = unlink_all fs (m.takeWhile (fun e => decide (e.1 ≤ now))) := by
  induction m generalizing fs with
  | nil => rfl
  | cons e rest ih =>
    obtain ⟨d, rel⟩ := e
    by_cases h : d ≤ now
    · simp [drain_loop, h, ih, unlink_all]
    · simp [drain_loop, h, unlink_all]

/-- In a registry with ascending keys the entries the loop test lets through are all the
entries that are due. -/
theorem takeWhile_due_eq_filter (now : Int) {m : ExpiryMap} (h : m.WF) :
    m.takeWhile (fun e => decide (e.1 ≤ now)) = m.filter (fun e => decide (e.1 ≤ now)) := by
  induction m with
  | nil => rfl
  | cons e rest ih =>
    unfold ExpiryMap.WF at h ih
    rw [List.pairwise_cons] at h
    by_cases hd : e.1 ≤ now
    · simp [hd, ih h.2]
    · have hrest : ∀ b ∈ rest, ¬ b.1 ≤ now := fun b hb => by
        have := h.1 b hb
        omega
      have hnil : rest.filter (fun e => decide (e.1 ≤ now)) = [] := by
        rw [List.filter_eq_nil_iff]
        intro b hb
        simpa using hrest b hb
      simp [hd, hnil]

/-- In a registry with ascending keys the entries the loop leaves are all the entries
that are not yet due. -/
theorem dropWhile_due_eq_filter (now : Int) {m : ExpiryMap} (h : m.WF) :
    m.dropWhile (fun e => decide (e.1 ≤ now)) = m.filter (fun e => decide (now < e.1)) := by
  induction m with
  | nil => rfl
  | cons e rest ih =>
    unfold ExpiryMap.WF at h ih
    rw [List.pairwise_cons] at h
    by_cases hd : e.1 ≤ now
    · have hn : ¬ now < e.1 := by omega
      simp [hd, hn, ih h.2]
    · have hn : now < e.1 := by omega
      have hrest : ∀ b ∈ rest, now < b.1 := fun b hb => by
        have := h.1 b hb
        omega
      have hall : rest.filter (fun e => decide (now < e.1)) = rest := by
        rw [List.filter_eq_self]
        intro b hb
        simpa using hrest b hb
      simp [hd, hn, hall]

/-- A second run of the loop at the same time stops at its first test. -/
theorem drain_loop_again (now : Int) (m : ExpiryMap) (fs fs2 : Fs) :
    drain_loop now (drain_loop now m fs).1 fs2 = ((drain_loop now m fs).1, fs2, []) := by
  induction m generalizing fs with
  | nil => rfl
  | cons e rest ih =>
    obtain ⟨d, rel⟩ := e
    by_cases h : d ≤ now
    · simp only [drain_loop, h, if_true]
      exact ih _
    · simp [drain_loop, h]

/-- The pass keeps the keys ascending. -/
theorem WF_delete_expired_files {s : State} (h : s.expiry_map.WF) (now : Int) :
    (delete_expired_files s now).1.expiry_map.WF := by
  simp only [delete_expired_files, drain_loop_map]
  exact List.Pairwise.sublist (List.dropWhile_sublist _) h

/-- Claim C4. On a registry in key order, one reaper pass at time `now` unlinks and erases
exactly the entries whose deadline is at most `now`, one after the other in strictly
ascending deadline order, and leaves as registry exactly the entries whose deadline is
greater than `now`, unchanged and in their order. -/
theorem drain_exact_and_ordered (s : State) (now : Int) (hwf : s.expiry_map.WF) :
    (delete_expired_files s now).1.expiry_map
        = s.expiry_map.filter (fun e => decide (now < e.1)) ∧
    (delete_expired_files s now).2
        = [Action.lock] ++ pass_actions (s.expiry_map.filter (fun e => decide (e.1 ≤ now)))
            ++ [Action.unlock] ∧
    (delete_expired_files s now).1.fs
        = unlink_all s.fs (s.expiry_map.filter (fun e => decide (e.1 ≤ now))) ∧
    (s.expiry_map.filter (fun e => decide (e.1 ≤ now))).Pairwise (fun a b => a.1 < b.1) ∧
    (∀ e, e ∈ s.expiry_map →
      (e ∈ (delete_expired_files s now).1.expiry_map ↔ now < e.1)) := by
  have hreg : (delete_expired_files s now).1.expiry_map
      = s.expiry_map.filter (fun e => decide (now < e.1)) := by
    simp only [delete_expired_files, drain_loop_map]
    exact dropWhile_due_eq_filter now hwf
  refine ⟨hreg, ?_, ?_, List.Pairwise.filter _ hwf, ?_⟩
  · simp only [delete_expired_files, drain_loop_actions, takeWhile_due_eq_filter now hwf]
  · simp only [delete_expired_files, drain_loop_fs, takeWhile_due_eq_filter now hwf]
  · intro e he
    rw [hreg, List.mem_filter]
    simp [he]

/-- Four entries, the pass at 103 leaves the one with deadline 104. -/
theorem drain_exact_and_ordered_witness :
    ExpiryMap.WF [(101, "a"), (102, "b"), (103, "c"), (104, "d")] ∧
    (delete_expired_files
        { expiry_map := [(101, "a"), (102, "b"), (103, "c"), (104, "d")], timeout_seconds := 3,
          fs := [] } 103).1.expiry_map
      = [(101, "a"), (102, "b"), (103, "c"), (104, "d")].filter (fun e => decide (103 < e.1)) :=
  ⟨by decide, (drain_exact_and_ordered
    { expiry_map := [(101, "a"), (102, "b"), (103, "c"), (104, "d")], timeout_seconds := 3,
      fs := [] } 103 (by decide)).1⟩

/-- Claim C9. A second reaper pass at the same `now`, with nothing inserted in between,
visits no entry: it performs no `unlink` and no `erase`, and leaves the registry and the
backing store as the first pass left them. -/
theorem drain_idempotent (s : State) (now : Int) :
    (delete_expired_files (delete_expired_files s now).1 now).1 = (delete_expired_files s now).1 ∧
    (delete_expired_files (delete_expired_files s now).1 now).2
      = [Action.lock, Action.unlock] := by
  simp [delete_expired_files, drain_loop_again]

/-- Claim C10, as the code has it. In every reaper pass the mutex is taken first and
released last; every `unlink` happens in between, while `expiry_mutex` is held, and is
directly followed by the `erase` of its own entry.  So a pass that finds an entry due
does unlink under the lock and before the entry leaves the registry. -/
theorem unlink_under_lock (s : State) (now : Int) :
    (delete_expired_files s now).2
        = [Action.lock]
            ++ pass_actions (s.expiry_map.takeWhile (fun e => decide (e.1 ≤ now)))
            ++ [Action.unlock] ∧
    (unlink_while_held false (delete_expired_files s now).2 = true ↔
      ∃ e, s.expiry_map.head? = some e ∧ e.1 ≤ now) ∧
    (unlink_before_erase (delete_expired_files s now).2 = true ↔
      ∃ e, s.expiry_map.head? = some e ∧ e.1 ≤ now) := by
  have htr : (delete_expired_files s now).2
      = [Action.lock]
          ++ pass_actions (s.expiry_map.takeWhile (fun e => decide (e.1 ≤ now)))
          ++ [Action.unlock] := by
    simp only [delete_expired_files, drain_loop_actions]
  refine ⟨htr, ?_, ?_⟩
  · rw [htr]
    cases hm : s.expiry_map with
    | nil => simp [pass_actions, unlink_while_held]
    | cons e rest =>
      by_cases hd : e.1 ≤ now
      · simp [pass_actions, unlink_while_held, hd]
      · simp [pass_actions, unlink_while_held, hd]
  · rw [htr]
    cases hm : s.expiry_map with
    | nil => simp [pass_actions, unlink_before_erase]
    | cons e rest =>
      by_cases hd : e.1 ≤ now
      · simp [pass_actions, unlink_before_erase, hd]
      · simp [pass_actions, unlink_before_erase, hd]

/-- Claim C10 as stated fails: with one entry due, the pass unlinks the backing file while
it holds the mutex and before it erases the entry. -/
theorem unlink_outside_lock_counterexample :
    (delete_expired_files { expiry_map := [(1, "a")], timeout_seconds := 60, fs := [] } 1).2
      = [Action.lock, Action.unlink "/tmp/timeoutfs_data/a", Action.erase 1, Action.unlock] ∧
    ¬ (unlink_while_held false
        (delete_expired_files { expiry_map := [(1, "a")], timeout_seconds := 60, fs := [] } 1).2
          = false) ∧
    ¬ (unlink_before_erase
        (delete_expired_files { expiry_map := [(1, "a")], timeout_seconds := 60, fs := [] } 1).2
          = false) := by
  decide

/-! ## The callbacks and the registry -/

/-- A `timeoutfs_create` that returns 0 went through a successful `open` and assigned its
deadline; the timeout is untouched. -/
theorem create_ok {s : State} {path : String} {mode fi_flags : Nat} {now : Int}
    (h : (timeoutfs_create s path mode fi_flags now).1 = 0) :
    ∃ fs1, sys_open s.cred s.fs (full_path path) (fi_flags ||| O_CREAT) mode = .ok fs1 ∧
      (timeoutfs_create s path mode fi_flags now).2 =
        { s with expiry_map := s.expiry_map.assign (now + s.timeout_seconds) (skip_leading path),
                 fs := fs1 } := by
  simp only [timeoutfs_create] at h ⊢
  cases hop : sys_open s.cred s.fs (full_path path) (fi_flags ||| O_CREAT) mode with
  | error e =>
    rw [hop] at h
    have := sys_open_errno_pos hop
    simp at h
    omega
  | ok fs1 => exact ⟨fs1, rfl, rfl⟩

/-- A failing `timeoutfs_create` leaves the state alone. -/
theorem create_fail {s : State} {path : String} {mode fi_flags : Nat} {now : Int}
    (h : (timeoutfs_create s path mode fi_flags now).1 ≠ 0) :
    (timeoutfs_create s path mode fi_flags now).2 = s := by
  simp only [timeoutfs_create] at h ⊢
  cases hop : sys_open s.cred s.fs (full_path path) (fi_flags ||| O_CREAT) mode with
  | error e => rfl
  | ok fs1 => rw [hop] at h; simp at h

/-- Claim C3. On a path that begins with the separator, if the backing `open` succeeds
`timeoutfs_create` returns 0 and the registry afterwards holds the path without its
separator under the deadline `now + timeout_seconds`, agrees with the old registry on
every other deadline, and (for a registry in key order) has as entries exactly the new one
and the old ones under other deadlines; if the `open` fails it returns the negated errno
and leaves the whole state, registry included, unchanged. -/
theorem create_registers_exactly_on_success (s : State) (rel : String) (mode fi_flags : Nat)
    (now : Int) :
    (∀ fs1, sys_open s.cred s.fs (full_path ("/" ++ rel)) (fi_flags ||| O_CREAT) mode = .ok fs1 →
      (timeoutfs_create s ("/" ++ rel) mode fi_flags now).1 = 0 ∧
      (timeoutfs_create s ("/" ++ rel) mode fi_flags now).2.fs = fs1 ∧
      (timeoutfs_create s ("/" ++ rel) mode fi_flags now).2.timeout_seconds
        = s.timeout_seconds ∧
      (timeoutfs_create s ("/" ++ rel) mode fi_flags now).2.expiry_map.find
        (now + s.timeout_seconds) = some rel ∧
      (∀ d, d ≠ now + s.timeout_seconds →
        (timeoutfs_create s ("/" ++ rel) mode fi_flags now).2.expiry_map.find d
          = s.expiry_map.find d) ∧
      (s.expiry_map.WF →
        (timeoutfs_create s ("/" ++ rel) mode fi_flags now).2.expiry_map.WF ∧
        ∀ e, e ∈ (timeoutfs_create s ("/" ++ rel) mode fi_flags now).2.expiry_map ↔
          e = (now + s.timeout_seconds, rel) ∨
            (e ∈ s.expiry_map ∧ e.1 ≠ now + s.timeout_seconds)))
    ∧ (∀ errno,
        sys_open s.cred s.fs (full_path ("/" ++ rel)) (fi_flags ||| O_CREAT) mode = .error errno →
        timeoutfs_create s ("/" ++ rel) mode fi_flags now = (-(errno : Int), s) ∧ 0 < errno)
    ∧ ((timeoutfs_create s ("/" ++ rel) mode fi_flags now).1 = 0 ↔
        ∃ fs1, sys_open s.cred s.fs (full_path ("/" ++ rel)) (fi_flags ||| O_CREAT) mode
          = .ok fs1) := by
  refine ⟨?_, ?_, ⟨fun h => ?_, fun h => ?_⟩⟩
  · intro fs1 hop
    have hst : timeoutfs_create s ("/" ++ rel) mode fi_flags now
        = (0, { s with expiry_map := s.expiry_map.assign (now + s.timeout_seconds) rel,
                       fs := fs1 }) := by
      simp only [timeoutfs_create, skip_leading_slash, hop]
    rw [hst]
    refine ⟨rfl, rfl, rfl, ExpiryMap.find_assign_self _ _ _,
      fun d hd => ExpiryMap.find_assign_ne _ _ hd, fun hwf => ?_⟩
    exact ⟨ExpiryMap.WF_assign hwf _ _, fun e => ExpiryMap.mem_assign_iff hwf⟩
  · intro errno hop
    refine ⟨?_, sys_open_errno_pos hop⟩
    simp only [timeoutfs_create, hop]
  · obtain ⟨fs1, h1, _⟩ := create_ok h
    exact ⟨fs1, h1⟩
  · obtain ⟨fs1, h1⟩ := h
    simp [timeoutfs_create, h1]

/-- On a fresh daemon with timeout 3, the create of `/a` at 100 returns 0 and registers
`"a"` under 103; without the backing directory the `open` fails with `ENOENT`, the create
returns -2 and the state is as before. -/
theorem create_registers_exactly_on_success_witness :
    sys_open Cred.user [(backing_dir, Node.dir)] (full_path ("/" ++ "a")) (577 ||| O_CREAT) 420
      = .ok [(full_path "/a", Node.file 420 []), (backing_dir, Node.dir)] ∧
    (timeoutfs_create (init 3 [(backing_dir, Node.dir)]) ("/" ++ "a") 420 577 100).1 = 0 ∧
    (timeoutfs_create (init 3 [(backing_dir, Node.dir)]) ("/" ++ "a") 420 577 100).2.expiry_map.find
      (100 + 3) = some "a" ∧
    sys_open Cred.user [] (full_path ("/" ++ "a")) (577 ||| O_CREAT) 420 = .error 2 ∧
    timeoutfs_create (init 3 []) ("/" ++ "a") 420 577 100 = (-((2 : Nat) : Int), init 3 []) :=
  have hop : sys_open Cred.user [(backing_dir, Node.dir)] (full_path ("/" ++ "a"))
      (577 ||| O_CREAT) 420
      = .ok [(full_path "/a", Node.file 420 []), (backing_dir, Node.dir)] := by decide
  have hfail : sys_open Cred.user [] (full_path ("/" ++ "a")) (577 ||| O_CREAT) 420
      = .error 2 := by decide
  have h := (create_registers_exactly_on_success (init 3 [(backing_dir, Node.dir)])
    "a" 420 577 100).1 _ hop
  have h2 := (create_registers_exactly_on_success (init 3 []) "a" 420 577 100).2.1 _ hfail
  ⟨hop, h.1, h.2.2.2.1, hfail, h2.1⟩

/-- Claim C6. For every path other than exactly "/", `timeoutfs_readdir` returns `-ENOENT`
and the buffer that collects the names passed to `filler` is returned as it was given:
`filler` is never called, not even for "." or "..". -/
theorem readdir_non_root (s : State) (path : String) (buf : List String) (h : path ≠ "/") :
    timeoutfs_readdir s path buf = (some (-2), buf, s) := by
  simp [timeoutfs_readdir, h, ENOENT]

/-- Listing `/sub` fails and adds no name. -/
theorem readdir_non_root_witness :
    ("/sub" ≠ "/") ∧ timeoutfs_readdir (init 60 []) "/sub" ["x"] = (some (-2), ["x"], init 60 []) :=
  ⟨by decide, readdir_non_root (init 60 []) "/sub" ["x"] (by decide)⟩

/-- Claim C5, amended. For every registry, deadline `d` and relative path `p`, the
assignment `expiry_map[d] = p` done by `timeoutfs_create` yields a registry that maps `d`
to `p` and agrees with the old one on every other deadline.  In particular, after two
successful creates of different paths that compute the same deadline, the registry (a
`std::map`, in key order) holds only the second path under that deadline and agrees with
the registry before the two creates on every other deadline; the first path is tracked
for deletion only by entries that were there before the two creates, under other
deadlines, so it is not tracked at all when it had no entry before. -/
theorem insert_collision_policy (s : State) (d : Int) (p rel1 rel2 : String)
    (mode1 flags1 mode2 flags2 : Nat) (now : Int) :
    ((s.expiry_map.assign d p).find d = some p ∧
      ∀ d2, d2 ≠ d → (s.expiry_map.assign d p).find d2 = s.expiry_map.find d2) ∧
    (s.expiry_map.WF → rel1 ≠ rel2 →
     (timeoutfs_create s ("/" ++ rel1) mode1 flags1 now).1 = 0 →
     (timeoutfs_create (timeoutfs_create s ("/" ++ rel1) mode1 flags1 now).2
        ("/" ++ rel2) mode2 flags2 now).1 = 0 →
     ((timeoutfs_create (timeoutfs_create s ("/" ++ rel1) mode1 flags1 now).2
        ("/" ++ rel2) mode2 flags2 now).2.expiry_map.find (now + s.timeout_seconds) = some rel2 ∧
      (∀ q, (now + s.timeout_seconds, q) ∈ (timeoutfs_create
        (timeoutfs_create s ("/" ++ rel1) mode1 flags1 now).2
        ("/" ++ rel2) mode2 flags2 now).2.expiry_map → q = rel2) ∧
      (∀ d2, d2 ≠ now + s.timeout_seconds →
        (timeoutfs_create (timeoutfs_create s ("/" ++ rel1) mode1 flags1 now).2
          ("/" ++ rel2) mode2 flags2 now).2.expiry_map.find d2 = s.expiry_map.find d2) ∧
      (∀ d2, (d2, rel1) ∈ (timeoutfs_create (timeoutfs_create s ("/" ++ rel1) mode1 flags1 now).2
          ("/" ++ rel2) mode2 flags2 now).2.expiry_map ↔
        d2 ≠ now + s.timeout_seconds ∧ (d2, rel1) ∈ s.expiry_map) ∧
      ((∀ d2, (d2, rel1) ∉ s.expiry_map) →
        ∀ d2, (d2, rel1) ∉ (timeoutfs_create
          (timeoutfs_create s ("/" ++ rel1) mode1 flags1 now).2
          ("/" ++ rel2) mode2 flags2 now).2.expiry_map))) := by
  refine ⟨⟨ExpiryMap.find_assign_self _ _ _, fun d2 hd => ExpiryMap.find_assign_ne _ _ hd⟩, ?_⟩
  intro hwf hne h1 h2
  obtain ⟨fs1, -, e1⟩ := create_ok h1
  obtain ⟨fs2, -, e2⟩ := create_ok h2
  rw [e2]
  rw [e1]
  simp only [skip_leading_slash]
  have hwf1 := ExpiryMap.WF_assign hwf (now + s.timeout_seconds) rel1
  have hwf2 := ExpiryMap.WF_assign hwf1 (now + s.timeout_seconds) rel2
  have huniq : ∀ q, (now + s.timeout_seconds, q) ∈
      ExpiryMap.assign (ExpiryMap.assign s.expiry_map (now + s.timeout_seconds) rel1)
        (now + s.timeout_seconds) rel2 → q = rel2 := fun q hq =>
    ExpiryMap.WF_unique hwf2 hq (ExpiryMap.mem_assign_self _ _ _)
  have hiff : ∀ d2, (d2, rel1) ∈
      ExpiryMap.assign (ExpiryMap.assign s.expiry_map (now + s.timeout_seconds) rel1)
        (now + s.timeout_seconds) rel2 ↔
      d2 ≠ now + s.timeout_seconds ∧ (d2, rel1) ∈ s.expiry_map := by
    intro d2
    constructor
    · intro hmem
      have hd : d2 ≠ now + s.timeout_seconds := by
        intro heq
        subst heq
        exact hne (huniq rel1 hmem)
      refine ⟨hd, ?_⟩
      rcases ExpiryMap.mem_assign hmem with h | h
      · exact absurd (Prod.mk.inj h).1 hd
      · rcases ExpiryMap.mem_assign h with h | h
        · exact absurd (Prod.mk.inj h).1 hd
        · exact h
    · rintro ⟨hd, hmem⟩
      exact ExpiryMap.mem_assign_of_ne _ (ExpiryMap.mem_assign_of_ne _ hmem hd) hd
  refine ⟨ExpiryMap.find_assign_self _ _ _, huniq, ?_, hiff, ?_⟩
  · intro d2 hd
    rw [ExpiryMap.find_assign_ne _ _ hd, ExpiryMap.find_assign_ne _ _ hd]
  · intro hnone d2 hmem
    exact hnone d2 ((hiff d2).1 hmem).2

/-- Two files created in second 100 with a timeout of 3, on a fresh daemon: the registry
maps 103 to `"b"`, and nothing names `"a"`. -/
theorem insert_collision_policy_witness :
    (init 3 [(backing_dir, Node.dir)]).expiry_map.WF ∧ "a" ≠ "b" ∧
    (timeoutfs_create (init 3 [(backing_dir, Node.dir)]) ("/" ++ "a") 420 577 100).1 = 0 ∧
    (timeoutfs_create
      (timeoutfs_create (init 3 [(backing_dir, Node.dir)]) ("/" ++ "a") 420 577 100).2
      ("/" ++ "b") 420 577 100).1 = 0 ∧
    (timeoutfs_create
      (timeoutfs_create (init 3 [(backing_dir, Node.dir)]) ("/" ++ "a") 420 577 100).2
      ("/" ++ "b") 420 577 100).2.expiry_map.find
        (100 + (init 3 [(backing_dir, Node.dir)]).timeout_seconds) = some "b" ∧
    ∀ d2, (d2, "a") ∉ (timeoutfs_create
      (timeoutfs_create (init 3 [(backing_dir, Node.dir)]) ("/" ++ "a") 420 577 100).2
      ("/" ++ "b") 420 577 100).2.expiry_map :=
  have h := (insert_collision_policy (init 3 [(backing_dir, Node.dir)]) 103 "p" "a" "b"
    420 577 420 577 100).2 (by decide) (by decide) (by decide) (by decide)
  ⟨by decide, by decide, by decide, by decide, h.1,
    h.2.2.2.2 (fun d2 hmem => by simp [init] at hmem)⟩

/-- Claim C5 as stated fails: the first path can still be tracked.  With a timeout of 3,
`/a` is created at 99, then `/a` and `/b` both at 100 (all three return 0, the last two
compute deadline 103).  The registry then holds `102 ↦ "a"` next to `103 ↦ "b"`, so `a`
is still tracked for deletion, and the reaper pass at 102 unlinks it. -/
theorem collision_still_tracked_counterexample :
    (timeoutfs_create (init 3 [(backing_dir, Node.dir)]) "/a" 420 577 99).1 = 0 ∧
    (timeoutfs_create (run (init 3 [(backing_dir, Node.dir)]) [Event.create "/a" 420 577 99])
      "/a" 420 577 100).1 = 0 ∧
    (timeoutfs_create (run (init 3 [(backing_dir, Node.dir)])
      [Event.create "/a" 420 577 99, Event.create "/a" 420 577 100]) "/b" 420 577 100).1 = 0 ∧
    (run (init 3 [(backing_dir, Node.dir)])
      [Event.create "/a" 420 577 99, Event.create "/a" 420 577 100,
        Event.create "/b" 420 577 100]).expiry_map = [(102, "a"), (103, "b")] ∧
    ¬ (∀ d, (d, "a") ∉ (run (init 3 [(backing_dir, Node.dir)])
      [Event.create "/a" 420 577 99, Event.create "/a" 420 577 100,
        Event.create "/b" 420 577 100]).expiry_map) ∧
    (run (init 3 [(backing_dir, Node.dir)])
      [Event.create "/a" 420 577 99, Event.create "/a" 420 577 100,
        Event.create "/b" 420 577 100]).fs.pathExists (full_path "/a") = true ∧
    (run (init 3 [(backing_dir, Node.dir)])
      [Event.create "/a" 420 577 99, Event.create "/a" 420 577 100,
        Event.create "/b" 420 577 100, Event.reap 102]).fs.pathExists (full_path "/a")
      = false := by
  have hreg : (run (init 3 [(backing_dir, Node.dir)])
      [Event.create "/a" 420 577 99, Event.create "/a" 420 577 100,
        Event.create "/b" 420 577 100]).expiry_map = [(102, "a"), (103, "b")] := by decide
  refine ⟨by decide, by decide, by decide, hreg, ?_, by decide, by decide⟩
  intro h
  exact h 102 (by rw [hreg]; exact List.mem_cons_self _ _)

theorem toInt32_of_lt {n : Int} (h0 : 0 ≤ n) (h1 : n < 2147483648) : toInt32 n = n := by
  unfold toInt32
  omega

theorem pwrite_chunk_length (buf : List Nat) (size : Nat) :
    (pwrite_chunk buf size).length ≤ MAX_RW_COUNT := by
  simp only [pwrite_chunk, List.length_take]
  omega

/-- The byte count of a `pwrite` fits the `int res` of the callback and is not `-1`. -/
theorem pwrite_res (buf : List Nat) (size : Nat) :
    toInt32 (pwrite_chunk buf size).length = (pwrite_chunk buf size).length ∧
      ¬ ((pwrite_chunk buf size).length : Int) = -1 := by
  have h := pwrite_chunk_length buf size
  unfold MAX_RW_COUNT at h
  exact ⟨toInt32_of_lt (by omega) (by omega), by omega⟩

theorem pwrite_chunk_all {data : List Nat} (h : data.length ≤ MAX_RW_COUNT) :
    pwrite_chunk data data.length = data := by
  simp [pwrite_chunk, Nat.min_eq_left h]

/-- A write of more than the kernel moves at once is short. -/
theorem pwrite_chunk_short {data : List Nat} (h : MAX_RW_COUNT ≤ data.length) :
    (pwrite_chunk data data.length).length = MAX_RW_COUNT := by
  simp only [pwrite_chunk, List.length_take]
  omega

theorem sys_open_wronly_creat_file {cred : Cred} {fs : Fs} {p : String} {m : Nat}
    {bytes : List Nat} (h : fs.lookup p = some (Node.file m bytes))
    (hts : Fs.trailing_slash p = false)
    (hperm : cred.privileged = true ∨ hasFlag m S_IWUSR = true) :
    sys_open cred fs p (O_WRONLY ||| O_CREAT) 420 = .ok fs := by
  have h1 : hasFlag (O_WRONLY ||| O_CREAT) O_EXCL = false := by decide
  have h2 : hasFlag (O_WRONLY ||| O_CREAT) O_TRUNC = false := by decide
  have h3 : ((O_WRONLY ||| O_CREAT) &&& O_ACCMODE == O_WRONLY) = true := by decide
  have h4 : ((O_WRONLY ||| O_CREAT) &&& O_ACCMODE == O_RDONLY) = false := by decide
  have hm : may_open cred m (O_WRONLY ||| O_CREAT) = true := by
    unfold may_open
    rw [h3, h4]
    rcases hperm with hp | hp <;> simp [hp]
  simp [sys_open, h, hts, h1, h2, hm]

theorem sys_open_rdonly_file {cred : Cred} {fs : Fs} {p : String} {m : Nat}
    {bytes : List Nat} (h : fs.lookup p = some (Node.file m bytes))
    (hts : Fs.trailing_slash p = false)
    (hperm : cred.privileged = true ∨ hasFlag m S_IRUSR = true) :
    sys_open cred fs p O_RDONLY 0 = .ok fs := by
  have h1 : hasFlag O_RDONLY O_CREAT = false := by decide
  have h2 : hasFlag O_RDONLY O_TRUNC = false := by decide
  have h3 : (O_RDONLY &&& O_ACCMODE == O_WRONLY) = false := by decide
  have h4 : (O_RDONLY &&& O_ACCMODE == O_RDONLY) = true := by decide
  have hm : may_open cred m O_RDONLY = true := by
    unfold may_open
    rw [h3, h4, h2]
    rcases hperm with hp | hp <;> simp [hp]
  simp [sys_open, h, hts, h1, h2, hm]

/-- What `timeoutfs_write` does at offset 0 on a path that names a regular file the
daemon may write. -/
theorem write_file {s : State} {path : String} {m : Nat} {bytes : List Nat}
    (h : s.fs.lookup (full_path path) = some (Node.file m bytes))
    (hts : Fs.trailing_slash (full_path path) = false)
    (hperm : s.cred.privileged = true ∨ hasFlag m S_IWUSR = true)
    (buf : List Nat) (size : Nat) (errno0 : Nat) :
    timeoutfs_write s path buf size 0 errno0 =
      (((pwrite_chunk buf size).length : Int),
       { s with
         fs := Fs.set s.fs (full_path path) (Node.file m (pwrite_bytes bytes buf size 0)) }) := by
  have hres := pwrite_res buf size
  simp [timeoutfs_write, sys_open_wronly_creat_file h hts hperm, stat_of_no_slash hts, h,
    hres.1, hres.2]

/-- What `timeoutfs_read` does at offset 0 on a path that names a regular file the
daemon may read. -/
theorem read_file {em : ExpiryMap} {T : Int} {fs : Fs} {cred : Cred} {path : String} {m : Nat}
    {bytes : List Nat} (h : fs.lookup (full_path path) = some (Node.file m bytes))
    (hts : Fs.trailing_slash (full_path path) = false)
    (hperm : cred.privileged = true ∨ hasFlag m S_IRUSR = true)
    (buf : List Nat) (size : Nat) (errno0 : Nat) :
    timeoutfs_read { expiry_map := em, timeout_seconds := T, fs := fs, cred := cred }
        path buf size 0 errno0 =
      ((if toInt32 (pread_bytes bytes size 0).length = -1 then -(errno0 : Int)
        else toInt32 (pread_bytes bytes size 0).length),
       pread_bytes bytes size 0 ++ buf.drop (pread_bytes bytes size 0).length,
       { expiry_map := em, timeout_seconds := T, fs := fs, cred := cred }) := by
  simp [timeoutfs_read, sys_open_rdonly_file h hts hperm, stat_of_no_slash hts, h]

/-- Reading `|data|` bytes at offset 0 after writing `data` at offset 0 gives back the
bytes the write took. -/
theorem pread_pwrite (bytes data : List Nat) :
    pread_bytes (pwrite_bytes bytes data data.length 0) data.length 0
      = pwrite_chunk data data.length := by
  unfold pread_bytes pwrite_bytes
  by_cases h : pwrite_chunk data data.length = []
  · have hlen : min data.length MAX_RW_COUNT = 0 := by
      have := congrArg List.length h
      simp only [pwrite_chunk, List.length_take, List.length_nil] at this
      omega
    simp [h, hlen]
  · have hlen : (pwrite_chunk data data.length).length = min data.length MAX_RW_COUNT := by
      simp only [pwrite_chunk, List.length_take]
      omega
    simp only [h, if_false, Int.toNat_zero, List.take_zero, List.nil_append, List.drop_zero,
      Nat.zero_sub, List.replicate_zero, zero_add]
    rw [← hlen, List.take_left]

/-- Claim C8, amended. After a successful `timeoutfs_create` of a path that leaves a
backing file the daemon may reopen for reading and writing (owner bits `0400` and `0200`
set, or a privileged daemon), writing `data` of at most `MAX_RW_COUNT` bytes at offset 0
and then reading `|data|` bytes at offset 0, with no reaper pass in between, makes both
calls return `|data|` and leaves the first `|data|` bytes of the read buffer equal to
`data` (the whole buffer when it has room for exactly `|data|` bytes). -/
theorem round_trip (s : State) (path : String) (mode fi_flags : Nat) (now : Int)
    (data buf : List Nat) (e1 e2 : Nat)
    (hcreate : (timeoutfs_create s path mode fi_flags now).1 = 0)
    (hperm : s.cred.privileged = true ∨
      (timeoutfs_create s path mode fi_flags now).2.fs.owner_rw (full_path path) = true)
    (hlen : data.length ≤ MAX_RW_COUNT) :
    (timeoutfs_write (timeoutfs_create s path mode fi_flags now).2 path data data.length 0 e1).1
        = data.length ∧
    (timeoutfs_read
        (timeoutfs_write (timeoutfs_create s path mode fi_flags now).2 path data data.length 0 e1).2
        path buf data.length 0 e2).1 = data.length ∧
    (timeoutfs_read
        (timeoutfs_write (timeoutfs_create s path mode fi_flags now).2 path data data.length 0 e1).2
        path buf data.length 0 e2).2.1 = data ++ buf.drop data.length ∧
    (buf.length = data.length →
      (timeoutfs_read
        (timeoutfs_write (timeoutfs_create s path mode fi_flags now).2 path data data.length 0 e1).2
        path buf data.length 0 e2).2.1 = data) := by
  obtain ⟨fs1, hop, hst⟩ := create_ok hcreate
  have hfile := sys_open_creat_isFile hop
  rw [isFile_iff] at hfile
  obtain ⟨hts, m, bytes, hb⟩ := hfile
  have hcred : (timeoutfs_create s path mode fi_flags now).2.cred = s.cred := by rw [hst]
  have hb1 : (timeoutfs_create s path mode fi_flags now).2.fs.lookup (full_path path)
      = some (Node.file m bytes) := by rw [hst]; exact hb
  have hbits : s.cred.privileged = true ∨
      (hasFlag m S_IRUSR = true ∧ hasFlag m S_IWUSR = true) := by
    rcases hperm with hp | hp
    · exact Or.inl hp
    · right
      unfold Fs.owner_rw at hp
      rw [stat_of_no_slash hts, hb1] at hp
      simpa [hasFlag, S_IRUSR, S_IWUSR] using hp
  have hpw : (timeoutfs_create s path mode fi_flags now).2.cred.privileged = true ∨
      hasFlag m S_IWUSR = true := by
    rw [hcred]; exact hbits.imp id (fun h => h.2)
  have hpr : (timeoutfs_create s path mode fi_flags now).2.cred.privileged = true ∨
      hasFlag m S_IRUSR = true := by
    rw [hcred]; exact hbits.imp id (fun h => h.1)
  have hconv : toInt32 (data.length : Int) = data.length := by
    unfold MAX_RW_COUNT at hlen
    exact toInt32_of_lt (by omega) (by omega)
  have hne : ¬ ((data.length : Int) = -1) := by omega
  rw [write_file hb1 hts hpw]
  have hb2 : (Fs.set (timeoutfs_create s path mode fi_flags now).2.fs (full_path path)
      (Node.file m (pwrite_bytes bytes data data.length 0))).lookup (full_path path)
      = some (Node.file m (pwrite_bytes bytes data data.length 0)) := Fs.lookup_set_self _ _ _
  rw [read_file hb2 hts hpr]
  simp only [pread_pwrite, pwrite_chunk_all hlen, hconv, hne, if_false]
  refine ⟨trivial, trivial, trivial, ?_⟩
  intro hl
  rw [← hl]
  simp

/-- The bytes of "Hello, TimeoutFS!" written to a fresh `/test_rw.txt` (mode `0644`) of an
unprivileged daemon and read back. -/
theorem round_trip_witness :
    (timeoutfs_create (init 3 [(backing_dir, Node.dir)]) "/test_rw.txt" 420 577 100).1 = 0 ∧
    ((init 3 [(backing_dir, Node.dir)]).cred.privileged = true ∨
      (timeoutfs_create (init 3 [(backing_dir, Node.dir)])
        "/test_rw.txt" 420 577 100).2.fs.owner_rw (full_path "/test_rw.txt") = true) ∧
    [72, 101, 108, 108, 111, 44, 32, 84, 105, 109, 101, 111, 117, 116, 70, 83, 33].length
      ≤ MAX_RW_COUNT ∧
    (timeoutfs_read
      (timeoutfs_write
        (timeoutfs_create (init 3 [(backing_dir, Node.dir)]) "/test_rw.txt" 420 577 100).2
        "/test_rw.txt"
        [72, 101, 108, 108, 111, 44, 32, 84, 105, 109, 101, 111, 117, 116, 70, 83, 33]
        [72, 101, 108, 108, 111, 44, 32, 84, 105, 109, 101, 111, 117, 116, 70, 83, 33].length
        0 0).2
      "/test_rw.txt" (List.replicate 17 0)
      [72, 101, 108, 108, 111, 44, 32, 84, 105, 109, 101, 111, 117, 116, 70, 83, 33].length
      0 0).2.1
      = [72, 101, 108, 108, 111, 44, 32, 84, 105, 109, 101, 111, 117, 116, 70, 83, 33] :=
  ⟨by decide, Or.inr (by decide), by decide,
    (round_trip (init 3 [(backing_dir, Node.dir)]) "/test_rw.txt" 420 577 100
      [72, 101, 108, 108, 111, 44, 32, 84, 105, 109, 101, 111, 117, 116, 70, 83, 33]
      (List.replicate 17 0) 0 0 (by decide) (Or.inr (by decide)) (by decide)).2.2.2
      (by decide)⟩

/-- Claim C8 as stated fails.  A file created read-only (mode `0444`) by an unprivileged
daemon: the create returns 0, and the write of one byte returns `-EACCES`, because
`timeoutfs_write` opens the path again.  And data of 2^31 bytes on a file created with
mode `0644`: one `pwrite` and one `pread` move `0x7ffff000` bytes, so the write and the
read both return 2147479552 and not the length of the data. -/
theorem round_trip_counterexample :
    ((timeoutfs_create (init 60 [(backing_dir, Node.dir)]) "/f" 292 577 0).1 = 0 ∧
     (timeoutfs_write (timeoutfs_create (init 60 [(backing_dir, Node.dir)]) "/f" 292 577 0).2
        "/f" [72] 1 0 0).1 = -13 ∧
     ¬ ((timeoutfs_write (timeoutfs_create (init 60 [(backing_dir, Node.dir)]) "/f" 292 577 0).2
        "/f" [72] 1 0 0).1 = (([72] : List Nat).length : Int))) ∧
    ((timeoutfs_create (init 60 [(backing_dir, Node.dir)]) "/f" 420 577 0).1 = 0 ∧
     (timeoutfs_write (timeoutfs_create (init 60 [(backing_dir, Node.dir)]) "/f" 420 577 0).2
        "/f" (List.replicate 2147483648 0) (List.replicate 2147483648 0).length 0 0).1
      = 2147479552 ∧
     (timeoutfs_read
        (timeoutfs_write (timeoutfs_create (init 60 [(backing_dir, Node.dir)]) "/f" 420 577 0).2
          "/f" (List.replicate 2147483648 0) (List.replicate 2147483648 0).length 0 0).2
        "/f" (List.replicate 2147483648 0) (List.replicate 2147483648 0).length 0 0).1
      = 2147479552 ∧
     ¬ ((timeoutfs_read
        (timeoutfs_write (timeoutfs_create (init 60 [(backing_dir, Node.dir)]) "/f" 420 577 0).2
          "/f" (List.replicate 2147483648 0) (List.replicate 2147483648 0).length 0 0).2
        "/f" (List.replicate 2147483648 0) (List.replicate 2147483648 0).length 0 0).1
      = ((List.replicate 2147483648 0).length : Int))) := by
  have hb1 : (timeoutfs_create (init 60 [(backing_dir, Node.dir)]) "/f" 420 577 0).2.fs.lookup
      (full_path "/f") = some (Node.file 420 []) := by decide
  have hts : Fs.trailing_slash (full_path "/f") = false := by decide
  have hpw : (timeoutfs_create (init 60 [(backing_dir, Node.dir)]) "/f" 420 577 0).2.cred.privileged
      = true ∨ hasFlag 420 S_IWUSR = true := Or.inr (by decide)
  have hpr : (timeoutfs_create (init 60 [(backing_dir, Node.dir)]) "/f" 420 577 0).2.cred.privileged
      = true ∨ hasFlag 420 S_IRUSR = true := Or.inr (by decide)
  have hbig : MAX_RW_COUNT ≤ (List.replicate 2147483648 0).length := by
    rw [List.length_replicate]; decide
  have hshort := pwrite_chunk_short hbig
  have hconv : toInt32 (2147479552 : Int) = 2147479552 := by decide
  have hw := write_file hb1 hts hpw (List.replicate 2147483648 0)
    (List.replicate 2147483648 0).length 0
  have hb2 : (Fs.set (timeoutfs_create (init 60 [(backing_dir, Node.dir)]) "/f" 420 577 0).2.fs
      (full_path "/f") (Node.file 420 (pwrite_bytes [] (List.replicate 2147483648 0)
        (List.replicate 2147483648 0).length 0))).lookup (full_path "/f")
      = some (Node.file 420 (pwrite_bytes [] (List.replicate 2147483648 0)
        (List.replicate 2147483648 0).length 0)) := Fs.lookup_set_self _ _ _
  have hwv : (timeoutfs_write
      (timeoutfs_create (init 60 [(backing_dir, Node.dir)]) "/f" 420 577 0).2 "/f"
      (List.replicate 2147483648 0) (List.replicate 2147483648 0).length 0 0).1
      = 2147479552 := by
    rw [hw]
    show ((pwrite_chunk (List.replicate 2147483648 0)
      (List.replicate 2147483648 0).length).length : Int) = 2147479552
    rw [hshort]
    rfl
  have hrv : (timeoutfs_read
      (timeoutfs_write (timeoutfs_create (init 60 [(backing_dir, Node.dir)]) "/f" 420 577 0).2
        "/f" (List.replicate 2147483648 0) (List.replicate 2147483648 0).length 0 0).2
      "/f" (List.replicate 2147483648 0) (List.replicate 2147483648 0).length 0 0).1
      = 2147479552 := by
    rw [hw]
    rw [read_file hb2 hts hpr]
    simp only [pread_pwrite]
    rw [hshort]
    show (if toInt32 (2147479552 : Int) = -1 then _ else toInt32 (2147479552 : Int)) = _
    rw [hconv]
    rfl
  refine ⟨⟨by decide, by decide, by decide⟩, by decide, hwv, hrv, ?_⟩
  rw [hrv]
  simp only [List.length_replicate]
  norm_num

/-! ## Runs: creation and expiry -/

/-- Claim C1 fails on the code. Two files created in the same second with a timeout of 3:
both creates return 0, the second assignment replaces the registry entry of the first, and
after the reaper pass at `now = 103 ≥ 100 + 3` the backing file of the first still exists
(the second is gone and the registry is empty, so no later pass removes it either). -/
theorem ttl_deletion_fails_on_same_deadline :
    (timeoutfs_create (init 3 [(backing_dir, Node.dir)]) "/a" 420 577 100).1 = 0 ∧
    (timeoutfs_create (timeoutfs_create (init 3 [(backing_dir, Node.dir)]) "/a" 420 577 100).2
      "/b" 420 577 100).1 = 0 ∧
    (run (init 3 [(backing_dir, Node.dir)])
      [Event.create "/a" 420 577 100, Event.create "/b" 420 577 100]).expiry_map
        = [(103, "b")] ∧
    (100 : Int) + 3 ≤ 103 ∧
    (run (init 3 [(backing_dir, Node.dir)])
      [Event.create "/a" 420 577 100, Event.create "/b" 420 577 100, Event.reap 103]).fs.pathExists
        (full_path "/a") = true ∧
    (run (init 3 [(backing_dir, Node.dir)])
      [Event.create "/a" 420 577 100, Event.create "/b" 420 577 100, Event.reap 103]).fs.pathExists
        (full_path "/b") = false ∧
    (run (init 3 [(backing_dir, Node.dir)])
      [Event.create "/a" 420 577 100, Event.create "/b" 420 577 100, Event.reap 103]).expiry_map
        = [] := by
  decide

/-- Claim C2 as stated fails: a path created at 100 and created again at 102, timeout 3.
Both creates return 0; the reaper pass at `now = 103 < 102 + 3` finds the entry of the
first create due and unlinks the backing file the second create was given. -/
theorem early_deletion_counterexample :
    (timeoutfs_create (init 3 [(backing_dir, Node.dir)]) "/a" 420 577 100).1 = 0 ∧
    (timeoutfs_create (timeoutfs_create (init 3 [(backing_dir, Node.dir)]) "/a" 420 577 100).2
      "/a" 420 577 102).1 = 0 ∧
    (103 : Int) < 102 + 3 ∧
    (run (init 3 [(backing_dir, Node.dir)])
      [Event.create "/a" 420 577 100, Event.create "/a" 420 577 102]).fs.pathExists
        (full_path "/a") = true ∧
    (run (init 3 [(backing_dir, Node.dir)])
      [Event.create "/a" 420 577 100, Event.create "/a" 420 577 102, Event.reap 103]).fs.pathExists
        (full_path "/a") = false := by
  decide

theorem step_timeout (s : State) (e : Event) : (step s e).timeout_seconds = s.timeout_seconds := by
  cases e with
  | create q m f t =>
    simp only [step, timeoutfs_create]
    split <;> rfl
  | reap now => rfl

theorem run_timeout (s : State) (evs : List Event) :
    (run s evs).timeout_seconds = s.timeout_seconds := by
  induction evs generalizing s with
  | nil => rfl
  | cons e rest ih =>
    show (run (step s e) rest).timeout_seconds = s.timeout_seconds
    rw [ih, step_timeout]

/-- Every registry entry after a step was there before or is the one the step's create
assigned. -/
theorem step_mem {s : State} {e : Event} {x : Int × String} (h : x ∈ (step s e).expiry_map) :
    x ∈ s.expiry_map ∨
      ∃ q m f t, e = Event.create q m f t ∧ x = (t + s.timeout_seconds, skip_leading q) := by
  cases e with
  | create q m f t =>
    simp only [step] at h
    by_cases hr : (timeoutfs_create s q m f t).1 = 0
    · obtain ⟨fs1, -, hst⟩ := create_ok hr
      rw [hst] at h
      rcases ExpiryMap.mem_assign h with h | h
      · exact Or.inr ⟨q, m, f, t, rfl, h⟩
      · exact Or.inl h
    · rw [create_fail hr] at h
      exact Or.inl h
  | reap now =>
    simp only [step, delete_expired_files, drain_loop_map] at h
    exact Or.inl ((List.dropWhile_sublist _).subset h)

/-- Every registry entry after a run was there at its start or comes from a create of
the run. -/
theorem run_mem {s : State} {evs : List Event} {x : Int × String}
    (h : x ∈ (run s evs).expiry_map) :
    x ∈ s.expiry_map ∨
      ∃ q m f t, Event.create q m f t ∈ evs ∧ x = (t + s.timeout_seconds, skip_leading q) := by
  induction evs generalizing s with
  | nil => exact Or.inl h
  | cons e rest ih =>
    have h2 : x ∈ (run (step s e) rest).expiry_map := h
    rcases ih h2 with h3 | ⟨q, m, f, t, hmem, hx⟩
    · rcases step_mem h3 with h4 | ⟨q, m, f, t, he, hx⟩
      · exact Or.inl h4
      · exact Or.inr ⟨q, m, f, t, by rw [he]; exact List.mem_cons_self _ _, hx⟩
    · rw [step_timeout] at hx
      exact Or.inr ⟨q, m, f, t, List.mem_cons_of_mem _ hmem, hx⟩

theorem sys_unlink_other (fs : Fs) {p q : String} (h : p ≠ q) :
    (sys_unlink fs p).2.lookup q = fs.lookup q := by
  unfold sys_unlink
  split
  · rfl
  · split
    · exact Fs.lookup_remove_ne fs h
    · rfl

/-- The drain loop leaves a path alone when no due entry names it. -/
theorem drain_loop_keeps (now : Int) (m : ExpiryMap) (fs : Fs) (fp : String)
    (h : ∀ e, e ∈ m → e.1 ≤ now → backing_dir ++ "/" ++ e.2 ≠ fp) :
    (drain_loop now m fs).2.1.lookup fp = fs.lookup fp := by
  induction m generalizing fs with
  | nil => rfl
  | cons e rest ih =>
    obtain ⟨d, rel⟩ := e
    by_cases hd : d ≤ now
    · simp only [drain_loop, hd, if_true]
      rw [ih _ (fun e he => h e (List.mem_cons_of_mem _ he))]
      exact sys_unlink_other fs (h (d, rel) (List.mem_cons_self _ _) hd)
    · simp [drain_loop, hd]

/-- One step keeps the backing file of `rel` and the bound `D` on the deadlines registered
for `rel`, when the step is a create that registers `rel` no earlier than `D` or a reaper
pass that samples a time before `D`. -/
theorem step_safe {s : State} {e : Event} {rel : String} {D : Int}
    (hfile : s.fs.isFile (full_path ("/" ++ rel)) = true)
    (hreg : ∀ d, (d, rel) ∈ s.expiry_map → D ≤ d)
    (hc : ∀ q m f t, e = Event.create q m f t → skip_leading q = rel → D ≤ t + s.timeout_seconds)
    (hr : ∀ now, e = Event.reap now → now < D) :
    (step s e).fs.isFile (full_path ("/" ++ rel)) = true ∧
      ∀ d, (d, rel) ∈ (step s e).expiry_map → D ≤ d := by
  constructor
  · cases e with
    | create q m f t =>
      simp only [step]
      by_cases hres : (timeoutfs_create s q m f t).1 = 0
      · obtain ⟨fs1, hop, hst⟩ := create_ok hres
        rw [hst]
        exact sys_open_keeps_file hop hfile
      · rw [create_fail hres]
        exact hfile
    | reap now =>
      have hnow := hr now rfl
      have hkeep : (drain_loop now s.expiry_map s.fs).2.1.lookup (full_path ("/" ++ rel))
          = s.fs.lookup (full_path ("/" ++ rel)) := by
        apply drain_loop_keeps
        intro e he hd heq
        rw [← full_path_slash] at heq
        have hrel : e.2 = rel := backing_path_inj heq
        have hD := hreg e.1 (by rw [← hrel]; exact he)
        omega
      rw [isFile_iff] at hfile ⊢
      simp only [step, delete_expired_files, hkeep]
      exact hfile
  · intro d hd
    rcases step_mem hd with h | ⟨q, m, f, t, he, hx⟩
    · exact hreg d h
    · have h1 := (Prod.mk.inj hx).1
      have h2 := (Prod.mk.inj hx).2
      rw [h1]
      exact hc q m f t he h2.symm

/-- The same along a run. -/
theorem run_safe {rel : String} {D : Int} (evs : List Event) :
    ∀ s : State, s.fs.isFile (full_path ("/" ++ rel)) = true →
    (∀ d, (d, rel) ∈ s.expiry_map → D ≤ d) →
    (∀ q m f t, Event.create q m f t ∈ evs → skip_leading q = rel →
      D ≤ t + s.timeout_seconds) →
    (∀ now, Event.reap now ∈ evs → now < D) →
    (run s evs).fs.isFile (full_path ("/" ++ rel)) = true := by
  induction evs with
  | nil => intro s hfile _ _ _; exact hfile
  | cons e rest ih =>
    intro s hfile hreg hc hr
    have hs : (step s e).fs.isFile (full_path ("/" ++ rel)) = true ∧
        ∀ d, (d, rel) ∈ (step s e).expiry_map → D ≤ d :=
      step_safe hfile hreg
        (fun q m f t (he : e = Event.create q m f t) =>
          hc q m f t (by rw [he]; exact List.mem_cons_self _ _))
        (fun now (he : e = Event.reap now) => hr now (by rw [he]; exact List.mem_cons_self _ _))
    show (run (step s e) rest).fs.isFile (full_path ("/" ++ rel)) = true
    apply ih (step s e) hs.1 hs.2
    · intro q m f t hmem hq
      rw [step_timeout]
      exact hc q m f t (List.mem_cons_of_mem _ hmem) hq
    · intro now hmem
      exact hr now (List.mem_cons_of_mem _ hmem)

/-- Claim C2, amended. In a run of creates and reaper passes from process start, take a
create of the path `/rel` at time `t0` that returns 0.  Suppose that at that moment the
registry holds no entry for the same relative path with a deadline before
`t0 + timeout_seconds` (none left pending by an earlier create), and that no later create
of the run that registers the same relative path samples a time before `t0`.  Then as
long as every later reaper pass samples a time `now < t0 + timeout_seconds`, the backing
file is there after each event that follows the create. -/
theorem no_early_deletion (T : Int) (fs0 : Fs) (pre post : List Event) (rel : String)
    (mode fi_flags : Nat) (t0 : Int) (k : Nat)
    (hok : (timeoutfs_create (run (init T fs0) pre) ("/" ++ rel) mode fi_flags t0).1 = 0)
    (hpending : ∀ d, (d, rel) ∈ (run (init T fs0) pre).expiry_map → t0 + T ≤ d)
    (hlater : ∀ q m f t1, Event.create q m f t1 ∈ post → skip_leading q = rel → t0 ≤ t1)
    (hearly : ∀ now, Event.reap now ∈ post → now < t0 + T) :
    (run (init T fs0)
      (pre ++ Event.create ("/" ++ rel) mode fi_flags t0 :: post.take k)).fs.isFile
        (full_path ("/" ++ rel)) = true := by
  have hT : (run (init T fs0) pre).timeout_seconds = T := by rw [run_timeout]; rfl
  obtain ⟨fs1, hop, hst⟩ := create_ok hok
  have hrun : run (init T fs0) (pre ++ Event.create ("/" ++ rel) mode fi_flags t0 :: post.take k)
      = run (step (run (init T fs0) pre) (Event.create ("/" ++ rel) mode fi_flags t0))
          (post.take k) := by
    simp [run, List.foldl_append]
  rw [hrun]
  have hstep : step (run (init T fs0) pre) (Event.create ("/" ++ rel) mode fi_flags t0)
      = { expiry_map := (run (init T fs0) pre).expiry_map.assign (t0 + T) rel,
          timeout_seconds := T, fs := fs1, cred := (run (init T fs0) pre).cred } := by
    simp only [step]
    rw [hst, skip_leading_slash, hT]
  rw [hstep]
  apply run_safe (post.take k)
  · exact sys_open_creat_isFile hop
  · intro d hd
    rcases ExpiryMap.mem_assign hd with h | h
    · rw [(Prod.mk.inj h).1]
    · exact hpending d h
  · intro q m f t1 hmem hq
    have := hlater q m f t1 (List.mem_of_mem_take hmem) hq
    show t0 + T ≤ t1 + T
    omega
  · intro now hmem
    exact hearly now (List.mem_of_mem_take hmem)

/-- The registry condition of `no_early_deletion` holds in particular when no create of
the run so far that registers the same relative path sampled a time before `t0`. -/
theorem no_pending_of_first {T : Int} {fs0 : Fs} {pre : List Event} {rel : String} {t0 : Int}
    (hfirst : ∀ q m f t1, Event.create q m f t1 ∈ pre → skip_leading q = rel → t0 ≤ t1) :
    ∀ d, (d, rel) ∈ (run (init T fs0) pre).expiry_map → t0 + T ≤ d := by
  intro d h
  rcases run_mem h with h2 | ⟨q, m, f, t1, hmem, hx⟩
  · cases h2
  · have h1 := (Prod.mk.inj hx).1
    have h2 := (Prod.mk.inj hx).2
    have := hfirst q m f t1 hmem h2.symm
    rw [h1]
    show t0 + T ≤ t1 + T
    omega

/-- An `unlink` leaves every path either missing or what it was. -/
theorem sys_unlink_lookup (fs : Fs) (p q : String) :
    (sys_unlink fs p).2.lookup q = none ∨ (sys_unlink fs p).2.lookup q = fs.lookup q := by
  by_cases h : p = q
  · subst h
    unfold sys_unlink
    split
    · exact Or.inr rfl
    · split
      · exact Or.inl (Fs.lookup_remove_self fs p)
      · exact Or.inr rfl
  · exact Or.inr (sys_unlink_other fs h)

/-- After `unlink` of a path that names a regular file or nothing, the path names nothing. -/
theorem sys_unlink_gone {fs : Fs} {p : String}
    (h : fs.lookup p = none ∨ fs.isFile p = true) : (sys_unlink fs p).2.lookup p = none := by
  unfold sys_unlink
  rcases h with h | h
  · split
    · exact h
    · simp [h]
  · rw [isFile_iff] at h
    obtain ⟨hts, m, b, hb⟩ := h
    simp [hts, hb, Fs.lookup_remove_self]

/-- The drain loop creates nothing: a path is afterwards missing or what it was. -/
theorem drain_loop_lookup (now : Int) (m : ExpiryMap) (fs : Fs) (q : String) :
    (drain_loop now m fs).2.1.lookup q = none ∨ (drain_loop now m fs).2.1.lookup q = fs.lookup q := by
  induction m generalizing fs with
  | nil => exact Or.inr rfl
  | cons e rest ih =>
    obtain ⟨d, rel⟩ := e
    by_cases hd : d ≤ now
    · simp only [drain_loop, hd, if_true]
      rcases ih (sys_unlink fs (backing_dir ++ "/" ++ rel)).2 with h | h
      · exact Or.inl h
      · rcases sys_unlink_lookup fs (backing_dir ++ "/" ++ rel) q with h2 | h2
        · exact Or.inl (h.trans h2)
        · exact Or.inr (h.trans h2)
    · simp [drain_loop, hd]

/-- On a registry in key order, a pass at `now` removes the backing file of every entry
that is due, when that path names a regular file or nothing. -/
theorem drain_loop_gone (now : Int) (m : ExpiryMap) (fs : Fs) {D : Int} {rel : String}
    (hwf : m.WF) (hmem : (D, rel) ∈ m) (hD : D ≤ now)
    (hfile : fs.lookup (backing_dir ++ "/" ++ rel) = none
      ∨ fs.isFile (backing_dir ++ "/" ++ rel) = true) :
    (drain_loop now m fs).2.1.lookup (backing_dir ++ "/" ++ rel) = none := by
  induction m generalizing fs with
  | nil => cases hmem
  | cons e rest ih =>
    obtain ⟨d, r⟩ := e
    unfold ExpiryMap.WF at hwf ih
    rw [List.pairwise_cons] at hwf
    simp only [List.mem_cons] at hmem
    rcases hmem with h | h
    · have hd : d ≤ now := by rw [← (Prod.mk.inj h).1]; exact hD
      have hr : r = rel := ((Prod.mk.inj h).2).symm
      subst hr
      simp only [drain_loop, hd, if_true]
      rcases drain_loop_lookup now rest (sys_unlink fs (backing_dir ++ "/" ++ r)).2
        (backing_dir ++ "/" ++ r) with h2 | h2
      · exact h2
      · exact h2.trans (sys_unlink_gone hfile)
    · have hlt : d < D := hwf.1 (D, rel) h
      have hd : d ≤ now := by omega
      simp only [drain_loop, hd, if_true]
      apply ih _ hwf.2 h
      rcases sys_unlink_lookup fs (backing_dir ++ "/" ++ r) (backing_dir ++ "/" ++ rel) with h2 | h2
      · exact Or.inl h2
      · rcases hfile with h3 | h3
        · exact Or.inl (h2.trans h3)
        · exact Or.inr (isFile_congr h2 h3)

theorem full_path_inj {p q : String} (h : full_path p = full_path q) : p = q :=
  string_append_cancel h

/-- A step that is not a create of the path leaves a missing backing path missing. -/
theorem step_gone {s : State} {e : Event} {path : String}
    (h : s.fs.lookup (full_path path) = none)
    (hc : ∀ q m f t, e = Event.create q m f t → q ≠ path) :
    (step s e).fs.lookup (full_path path) = none := by
  cases e with
  | create q m f t =>
    simp only [step]
    by_cases hres : (timeoutfs_create s q m f t).1 = 0
    · obtain ⟨fs1, hop, hst⟩ := create_ok hres
      rw [hst]
      have hne : full_path q ≠ full_path path := fun heq => hc q m f t rfl (full_path_inj heq)
      exact (sys_open_other hop hne).trans h
    · rw [create_fail hres]
      exact h
  | reap now =>
    simp only [step, delete_expired_files]
    rcases drain_loop_lookup now s.expiry_map s.fs (full_path path) with h2 | h2
    · exact h2
    · exact h2.trans h

theorem run_gone {path : String} (evs : List Event) :
    ∀ s : State, s.fs.lookup (full_path path) = none →
    (∀ q m f t, Event.create q m f t ∈ evs → q ≠ path) →
    (run s evs).fs.lookup (full_path path) = none := by
  induction evs with
  | nil => intro s h _; exact h
  | cons e rest ih =>
    intro s h hc
    show (run (step s e) rest).fs.lookup (full_path path) = none
    apply ih
    · exact step_gone h (fun q m f t (he : e = Event.create q m f t) =>
        hc q m f t (by rw [he]; exact List.mem_cons_self _ _))
    · intro q m f t hmem
      exact hc q m f t (List.mem_cons_of_mem _ hmem)

theorem WF_step {s : State} (h : s.expiry_map.WF) (e : Event) : (step s e).expiry_map.WF := by
  cases e with
  | create q m f t =>
    simp only [step]
    by_cases hres : (timeoutfs_create s q m f t).1 = 0
    · obtain ⟨fs1, -, hst⟩ := create_ok hres
      rw [hst]
      exact ExpiryMap.WF_assign h _ _
    · rw [create_fail hres]
      exact h
  | reap now => exact WF_delete_expired_files h now

theorem WF_run {s : State} (h : s.expiry_map.WF) (evs : List Event) :
    (run s evs).expiry_map.WF := by
  induction evs generalizing s with
  | nil => exact h
  | cons e rest ih => exact ih (WF_step h e)

/-- While the entry `(D, rel)` is pending, a run in which no create computes the deadline
`D` again, the path is not created again, and some reaper pass samples `now ≥ D`, ends
with the backing file gone. -/
theorem run_expires {rel : String} {D : Int} (evs : List Event) :
    ∀ s : State, s.expiry_map.WF → (D, rel) ∈ s.expiry_map →
    (s.fs.lookup (full_path ("/" ++ rel)) = none ∨ s.fs.isFile (full_path ("/" ++ rel)) = true) →
    (∀ q m f t, Event.create q m f t ∈ evs → t + s.timeout_seconds ≠ D) →
    (∀ q m f t, Event.create q m f t ∈ evs → q ≠ "/" ++ rel) →
    (∃ now, Event.reap now ∈ evs ∧ D ≤ now) →
    (run s evs).fs.lookup (full_path ("/" ++ rel)) = none := by
  induction evs with
  | nil =>
    intro s _ _ _ _ _ hex
    obtain ⟨now, hmem, _⟩ := hex
    cases hmem
  | cons e rest ih =>
    intro s hwf hmem hfile hdl hpath hex
    show (run (step s e) rest).fs.lookup (full_path ("/" ++ rel)) = none
    have hpath2 : ∀ q m f t, Event.create q m f t ∈ rest → q ≠ "/" ++ rel :=
      fun q m f t h => hpath q m f t (List.mem_cons_of_mem _ h)
    cases e with
    | create q m f t =>
      have hex2 : ∃ now, Event.reap now ∈ rest ∧ D ≤ now := by
        obtain ⟨now, hm, hle⟩ := hex
        simp only [List.mem_cons, reduceCtorEq, false_or] at hm
        exact ⟨now, hm, hle⟩
      have hq : q ≠ "/" ++ rel := hpath q m f t (List.mem_cons_self _ _)
      have hk : t + s.timeout_seconds ≠ D := hdl q m f t (List.mem_cons_self _ _)
      apply ih (step s (Event.create q m f t)) (WF_step hwf _)
      · simp only [step]
        by_cases hres : (timeoutfs_create s q m f t).1 = 0
        · obtain ⟨fs1, -, hst⟩ := create_ok hres
          rw [hst]
          exact ExpiryMap.mem_assign_of_ne _ hmem (fun h => hk h.symm)
        · rw [create_fail hres]
          exact hmem
      · simp only [step]
        by_cases hres : (timeoutfs_create s q m f t).1 = 0
        · obtain ⟨fs1, hop, hst⟩ := create_ok hres
          rw [hst]
          have hne : full_path q ≠ full_path ("/" ++ rel) := fun heq => hq (full_path_inj heq)
          have hl := sys_open_other hop hne
          rcases hfile with h | h
          · exact Or.inl (hl.trans h)
          · exact Or.inr (isFile_congr hl h)
        · rw [create_fail hres]
          exact hfile
      · intro q2 m2 f2 t2 h
        rw [step_timeout]
        exact hdl q2 m2 f2 t2 (List.mem_cons_of_mem _ h)
      · exact hpath2
      · exact hex2
    | reap now =>
      by_cases hnow : D ≤ now
      · apply run_gone rest _ _ hpath2
        simp only [step, delete_expired_files]
        rw [← full_path_slash] at hfile ⊢
        exact drain_loop_gone now s.expiry_map s.fs hwf hmem hnow hfile
      · have hex2 : ∃ now2, Event.reap now2 ∈ rest ∧ D ≤ now2 := by
          obtain ⟨now2, hm, hle⟩ := hex
          simp only [List.mem_cons, Event.reap.injEq] at hm
          rcases hm with h | h
          · subst h; exact absurd hle hnow
          · exact ⟨now2, h, hle⟩
        apply ih (step s (Event.reap now)) (WF_step hwf _)
        · simp only [step, delete_expired_files, drain_loop_map,
            dropWhile_due_eq_filter now hwf, List.mem_filter]
          exact ⟨hmem, by simpa using hnow⟩
        · simp only [step, delete_expired_files]
          rcases drain_loop_lookup now s.expiry_map s.fs (full_path ("/" ++ rel)) with h | h
          · exact Or.inl h
          · rcases hfile with h3 | h3
            · exact Or.inl (h.trans h3)
            · exact Or.inr (isFile_congr h h3)
        · intro q2 m2 f2 t2 h
          rw [step_timeout]
          exact hdl q2 m2 f2 t2 (List.mem_cons_of_mem _ h)
        · exact hpath2
        · exact hex2

/-- What the code does achieve of TTL deletion. In a run from process start, after a
create of `/rel` at time `t0` that returns 0: if no later create of the run computes the
same deadline `t0 + timeout_seconds`, the path is not created again, and some later
reaper pass samples `now ≥ t0 + timeout_seconds`, the backing file does not exist when
the run is over. -/
theorem ttl_deletion_unshared_deadline (T : Int) (fs0 : Fs) (pre post : List Event)
    (rel : String) (mode fi_flags : Nat) (t0 : Int)
    (hok : (timeoutfs_create (run (init T fs0) pre) ("/" ++ rel) mode fi_flags t0).1 = 0)
    (hdl : ∀ q m f t1, Event.create q m f t1 ∈ post → t1 + T ≠ t0 + T)
    (hpath : ∀ q m f t1, Event.create q m f t1 ∈ post → q ≠ "/" ++ rel)
    (hreap : ∃ now, Event.reap now ∈ post ∧ t0 + T ≤ now) :
    (run (init T fs0)
      (pre ++ Event.create ("/" ++ rel) mode fi_flags t0 :: post)).fs.pathExists
        (full_path ("/" ++ rel)) = false := by
  have hT : (run (init T fs0) pre).timeout_seconds = T := by rw [run_timeout]; rfl
  have hwf : (run (init T fs0) pre).expiry_map.WF :=
    WF_run (by simp [init, ExpiryMap.WF]) pre
  obtain ⟨fs1, hop, hst⟩ := create_ok hok
  have hrun : run (init T fs0) (pre ++ Event.create ("/" ++ rel) mode fi_flags t0 :: post)
      = run (step (run (init T fs0) pre) (Event.create ("/" ++ rel) mode fi_flags t0)) post := by
    simp [run, List.foldl_append]
  have hstep : step (run (init T fs0) pre) (Event.create ("/" ++ rel) mode fi_flags t0)
      = { expiry_map := (run (init T fs0) pre).expiry_map.assign (t0 + T) rel,
          timeout_seconds := T, fs := fs1, cred := (run (init T fs0) pre).cred } := by
    simp only [step]
    rw [hst, skip_leading_slash, hT]
  have hnone : (run (init T fs0)
      (pre ++ Event.create ("/" ++ rel) mode fi_flags t0 :: post)).fs.lookup
        (full_path ("/" ++ rel)) = none := by
    rw [hrun, hstep]
    apply run_expires post
    · exact ExpiryMap.WF_assign hwf _ _
    · exact ExpiryMap.mem_assign_self _ _ _
    · exact Or.inr (sys_open_creat_isFile hop)
    · exact hdl
    · exact hpath
    · exact hreap
  have hts := ((isFile_iff _ _).1 (sys_open_creat_isFile hop)).1
  simp [Fs.pathExists, stat_of_no_slash hts, hnone]

/-- Timeout 3, on a fresh daemon: `/a` created at 90 and reaped by the pass at 95; `/a`
created again at 100, then a pass at 101, one more create of `/a` at 101 and a pass at
102: the backing file of `/a` is there. -/
theorem no_early_deletion_witness :
    (timeoutfs_create
      (run (init 3 [(backing_dir, Node.dir)]) [Event.create "/a" 420 577 90, Event.reap 95])
      ("/" ++ "a") 420 577 100).1 = 0 ∧
    (∀ d, (d, "a") ∈ (run (init 3 [(backing_dir, Node.dir)])
        [Event.create "/a" 420 577 90, Event.reap 95]).expiry_map → 100 + 3 ≤ d) ∧
    (∀ q m f t1, Event.create q m f t1 ∈
        [Event.reap 101, Event.create "/a" 420 577 101, Event.reap 102] →
      skip_leading q = "a" → (100 : Int) ≤ t1) ∧
    (∀ now, Event.reap now ∈ [Event.reap 101, Event.create "/a" 420 577 101, Event.reap 102] →
      now < 100 + 3) ∧
    (run (init 3 [(backing_dir, Node.dir)])
      ([Event.create "/a" 420 577 90, Event.reap 95] ++ Event.create ("/" ++ "a") 420 577 100 ::
        [Event.reap 101, Event.create "/a" 420 577 101, Event.reap 102].take 3)).fs.isFile
        (full_path ("/" ++ "a")) = true :=
  have hpending : ∀ d, (d, "a") ∈ (run (init 3 [(backing_dir, Node.dir)])
      [Event.create "/a" 420 577 90, Event.reap 95]).expiry_map → 100 + 3 ≤ d := by
    intro d h
    have hnil : (run (init 3 [(backing_dir, Node.dir)])
        [Event.create "/a" 420 577 90, Event.reap 95]).expiry_map = [] := by
      decide
    rw [hnil] at h
    cases h
  have hlater : ∀ q m f t1, Event.create q m f t1 ∈
      [Event.reap 101, Event.create "/a" 420 577 101, Event.reap 102] →
      skip_leading q = "a" → (100 : Int) ≤ t1 := by
    intro q m f t1 hmem _
    simp only [List.mem_cons, Event.create.injEq, List.mem_singleton, reduceCtorEq, false_or,
      or_false, List.not_mem_nil] at hmem
    obtain ⟨-, -, -, rfl⟩ := hmem
    decide
  have hearly : ∀ now,
      Event.reap now ∈ [Event.reap 101, Event.create "/a" 420 577 101, Event.reap 102] →
      now < 100 + 3 := by
    intro now hmem
    simp only [List.mem_cons, Event.reap.injEq, List.mem_singleton, reduceCtorEq, false_or,
      or_false, List.not_mem_nil] at hmem
    rcases hmem with rfl | rfl <;> decide
  ⟨by decide, hpending, hlater, hearly,
    no_early_deletion 3 [(backing_dir, Node.dir)] [Event.create "/a" 420 577 90, Event.reap 95]
      [Event.reap 101, Event.create "/a" 420 577 101, Event.reap 102] "a" 420 577 100 3
      (by decide) hpending hlater hearly⟩

end TimeoutFS
